import Mathlib

/-!
Verification development for the SNI-driven TLS context registry
(`SSLContextManager` / `SslContexts` in `wangle/ssl/SSLContextManager.cpp`).

The data model and the operations below are a shallow embedding of the C++
source.  Domain names are lists of characters (the source's `DNString`,
assumed already lower-cased; case folding is orthogonal to everything proved
here).  The `std::unordered_map` `dnMap_` is embedded as an association list
with unique keys; `std::shared_ptr` identity of server contexts is embedded
as equality of `ServerSSLContext` values carrying a numeric identity.
Exceptions are embedded as `Except`/`Option` error results; for operations
that may mutate before throwing, the embedding returns the state at the
point of the throw together with the error.
-/

namespace Wangle

/-- CertCrypto enum from wangle/ssl: the two crypto tiers. -/
inductive CertCrypto where
  | BEST_AVAILABLE
  | SHA1_SIGNATURE
deriving DecidableEq, Repr

/-- SSLContextKey: a (DNString, CertCrypto) pair, the key of `dnMap_`
and the element type of `defaultCtxKeys_`. -/
structure SSLContextKey where
  dnString : List Char
  certCrypto : CertCrypto
deriving DecidableEq, Repr

/-- TLSTicketKeySeeds: the (old, current, new) seed triple. -/
structure TLSTicketKeySeeds where
  oldSeeds : List String
  currentSeeds : List String
  newSeeds : List String
deriving DecidableEq, Repr

/-- The seed triple a fresh `TLSTicketKeySeeds seeds;` holds: all empty. -/
def TLSTicketKeySeeds.empty : TLSTicketKeySeeds := ⟨[], [], []⟩

/-- ServerSSLContext handle: `id` stands for the `shared_ptr` identity of
the context object, `ticketManager` for `getTicketManager()` — modelled by
the seed triple the manager holds (`none` when there is no manager). -/
structure ServerSSLContext where
  id : Nat
  ticketManager : Option TLSTicketKeySeeds
deriving DecidableEq, Repr

/-- The state of one `SSLContextManager::SslContexts` object. -/
structure SslContexts where
  ctxs : List ServerSSLContext
  defaultCtxKeys : List SSLContextKey
  defaultCtxDomainName : List Char
  strict : Bool
  dnMap : List (SSLContextKey × ServerSSLContext)
deriving DecidableEq, Repr

/-- SslContexts::create(strict): a freshly constructed, empty state. -/
def SslContexts.create (strict : Bool) : SslContexts :=
  { ctxs := [], defaultCtxKeys := [], defaultCtxDomainName := [],
    strict := strict, dnMap := [] }

/-- dnMap_.find(key): first entry with the given key (keys are unique in
reachable states, so first-match agrees with `unordered_map::find`). -/
def dnFind (m : List (SSLContextKey × ServerSSLContext)) (key : SSLContextKey) :
    Option ServerSSLContext :=
  match m with
  | [] => none
  | p :: rest => if p.1 = key then some p.2 else dnFind rest key

/-- dnMap_.erase(it) at the iterator returned by find: drop the first entry
with the given key. -/
def dnErase (m : List (SSLContextKey × ServerSSLContext)) (key : SSLContextKey) :
    List (SSLContextKey × ServerSSLContext) :=
  match m with
  | [] => []
  | p :: rest => if p.1 = key then rest else p :: dnErase rest key

/-- `v1->second = sslCtx`: replace the value of the first entry with the
given key. -/
def dnReplace (m : List (SSLContextKey × ServerSSLContext)) (key : SSLContextKey)
    (c : ServerSSLContext) : List (SSLContextKey × ServerSSLContext) :=
  match m with
  | [] => []
  | p :: rest => if p.1 = key then (key, c) :: rest else p :: dnReplace rest key c

/-- `defaultCtxKeys_.erase(std::find(...))`: drop the first occurrence. -/
def keyErase (l : List SSLContextKey) (key : SSLContextKey) : List SSLContextKey :=
  match l with
  | [] => []
  | k :: rest => if k = key then rest else k :: keyErase rest key

/-- SslContexts::insertIntoDnMap (SSLContextManager.cpp:953-985). -/
def insertIntoDnMap (s : SslContexts) (key : SSLContextKey) (sslCtx : ServerSSLContext)
    (overwrite : Bool) : SslContexts :=
  match dnFind s.dnMap key with
  | some c =>
    if c = sslCtx then
      s
    else if overwrite then
      { s with dnMap := dnReplace s.dnMap key sslCtx }
    else
      s
  | none =>
    if key ∈ s.defaultCtxKeys then
      if overwrite then
        { s with defaultCtxKeys := keyErase s.defaultCtxKeys key,
                 dnMap := s.dnMap ++ [(key, sslCtx)] }
      else
        s
    else
      { s with dnMap := s.dnMap ++ [(key, sslCtx)] }

/-- SslContexts::insertIntoDefaultKeys (SSLContextManager.cpp:987-1010). -/
def insertIntoDefaultKeys (s : SslContexts) (key : SSLContextKey) (overwrite : Bool) :
    SslContexts :=
  match dnFind s.dnMap key with
  | some _ =>
    if overwrite then
      { s with dnMap := dnErase s.dnMap key,
               defaultCtxKeys := s.defaultCtxKeys ++ [key] }
    else
      s
  | none =>
    if key ∈ s.defaultCtxKeys then
      s
    else
      { s with defaultCtxKeys := s.defaultCtxKeys ++ [key] }

/-- Error kinds thrown by the name-insertion path. -/
inductive InsertErr where
  | invalidWildcard
  | emptyDomain
  | embeddedStar
  | starCertNotDefault
deriving DecidableEq, Repr

/-- Wildcard handling at the top of insertSSLCtxByDomainNameImpl: when
`len > 2 && dn[0] == '*'`, a following `'.'` makes the stored name start at
the `'.'` (strip the `'*'`); any other character after `'*'` throws. -/
def stripWildcard (dn : List Char) : Except InsertErr (List Char) :=
  if dn.length > 2 ∧ dn.headI = '*' then
    if dn.tail.headI = '.' then Except.ok dn.tail else Except.error InsertErr.invalidWildcard
  else
    Except.ok dn

/-- Name normalization of insertSSLCtxByDomainNameImpl: strip a `*.` prefix,
reject a bare `.` and any remaining `*`. -/
def normalizeDn (dn : List Char) : Except InsertErr (List Char) :=
  match stripWildcard dn with
  | Except.error e => Except.error e
  | Except.ok d =>
    if d = ['.'] then Except.error InsertErr.emptyDomain
    else if '*' ∈ d then Except.error InsertErr.embeddedStar
    else Except.ok d

/-- SslContexts::insertSSLCtxByDomainNameImpl (SSLContextManager.cpp:888-944):
normalize the raw name, insert the main key (with overwrite), and for a
non-best crypto tier also insert the weak `BEST_AVAILABLE` key without
overwrite.  All throws happen before the first mutation, so `Except` is a
faithful embedding. -/
def insertSSLCtxByDomainNameImpl (s : SslContexts) (dn : List Char)
    (sslCtx : ServerSSLContext) (certCrypto : CertCrypto) (defaultFallback : Bool) :
    Except InsertErr SslContexts :=
  match normalizeDn dn with
  | Except.error e => Except.error e
  | Except.ok d =>
    let mainKey : SSLContextKey := ⟨d, certCrypto⟩
    let s1 := if defaultFallback then insertIntoDefaultKeys s mainKey true
              else insertIntoDnMap s mainKey sslCtx true
    if certCrypto ≠ CertCrypto.BEST_AVAILABLE then
      let weakKey : SSLContextKey := ⟨d, CertCrypto.BEST_AVAILABLE⟩
      Except.ok (if defaultFallback then insertIntoDefaultKeys s1 weakKey false
                 else insertIntoDnMap s1 weakKey sslCtx false)
    else
      Except.ok s1

/-- SslContexts::insertSSLCtxByDomainName (SSLContextManager.cpp:872-886):
strict mode rethrows, lax mode logs and drops the name (the impl mutates
nothing before throwing, so the state is unchanged either way). -/
def insertSSLCtxByDomainName (s : SslContexts) (dn : List Char)
    (sslCtx : ServerSSLContext) (certCrypto : CertCrypto) (defaultFallback : Bool) :
    Except InsertErr SslContexts :=
  match insertSSLCtxByDomainNameImpl s dn sslCtx certCrypto defaultFallback with
  | Except.ok s1 => Except.ok s1
  | Except.error e => if s.strict then Except.error e else Except.ok s

/-- SslContexts::addServerContext: append to `ctxs_`. -/
def addServerContext (s : SslContexts) (sslCtx : ServerSSLContext) : SslContexts :=
  { s with ctxs := s.ctxs ++ [sslCtx] }

/-- Certificate data relevant to SslContexts::insert: the Common Name, the
DNS-type subject alternative names, and the signature algorithm nid
(`X509_get_signature_nid`). -/
structure CertInfo where
  cn : List Char
  sans : List (List Char)
  sigAlg : Nat
deriving DecidableEq, Repr

/-- OpenSSL NID_sha1WithRSAEncryption. -/
def NID_sha1WithRSAEncryption : Nat := 65

/-- OpenSSL NID_ecdsa_with_SHA1. -/
def NID_ecdsa_with_SHA1 : Nat := 416

/-- Crypto-tier derivation in SslContexts::insert (SSLContextManager.cpp:843-852). -/
def certCryptoOf (cert : CertInfo) : CertCrypto :=
  if cert.sigAlg = NID_sha1WithRSAEncryption ∨ cert.sigAlg = NID_ecdsa_with_SHA1 then
    CertCrypto.SHA1_SIGNATURE
  else
    CertCrypto.BEST_AVAILABLE

/-- The name-insertion loop of SslContexts::insert: CN first, then each SAN,
each through the strict/lax wrapper.  In strict mode a throw propagates,
leaving in place the mutations already made for earlier names; the returned
state is the state at the point of the throw. -/
def insertNames (s : SslContexts) (names : List (List Char)) (sslCtx : ServerSSLContext)
    (certCrypto : CertCrypto) (defaultFallback : Bool) : SslContexts × Option InsertErr :=
  match names with
  | [] => (s, none)
  | n :: rest =>
    match insertSSLCtxByDomainName s n sslCtx certCrypto defaultFallback with
    | Except.ok s1 => insertNames s1 rest sslCtx certCrypto defaultFallback
    | Except.error e => (s, some e)

/-- SslContexts::insert (SSLContextManager.cpp:803-870): star-CN check,
crypto derivation, CN+SAN insertion, then either record the default domain
name or append the context to `ctxs_`.  The X509 handle extraction (which
can only fail for invalid certificates, out of scope here) is represented
by the `CertInfo` argument. -/
def insert (s : SslContexts) (cert : CertInfo) (sslCtx : ServerSSLContext)
    (defaultFallback : Bool) : SslContexts × Option InsertErr :=
  if cert.cn = ['*'] then
    if defaultFallback then (s, none) else (s, some InsertErr.starCertNotDefault)
  else
    match insertNames s (cert.cn :: cert.sans) sslCtx (certCryptoOf cert) defaultFallback with
    | (s1, some e) => (s1, some e)
    | (s1, none) =>
      if defaultFallback then ({ s1 with defaultCtxDomainName := cert.cn }, none)
      else (addServerContext s1 sslCtx, none)

/-- Error results of SslContexts::removeSSLContextConfig: the
cannot-remove-default `std::invalid_argument`, and the `CHECK` on the
context being present in `ctxs_` (a failed `CHECK` aborts the process). -/
inductive RemoveErr where
  | cannotRemoveDefault
  | checkFailure
deriving DecidableEq, Repr

/-- SslContexts::removeSSLContextConfig (SSLContextManager.cpp:406-425).
The throw and the `CHECK` both precede every mutation, so on an error the
returned state is the input state. -/
def removeSSLContextConfig (s : SslContexts) (key : SSLContextKey) :
    SslContexts × Option RemoveErr :=
  if key ∈ s.defaultCtxKeys then
    (s, some RemoveErr.cannotRemoveDefault)
  else
    match dnFind s.dnMap key with
    | none => (s, none)
    | some c =>
      if c ∈ s.ctxs then
        ({ s with ctxs := s.ctxs.erase c, dnMap := dnErase s.dnMap key }, none)
      else
        (s, some RemoveErr.checkFailure)

/-- SslContexts::clear (SSLContextManager.cpp:346-350). -/
def SslContexts.clear (s : SslContexts) : SslContexts :=
  { s with ctxs := [], defaultCtxKeys := [], dnMap := [] }

/-- The suffix used for one-level wildcard matching:
`key.dnString.find_first_of(".")` and the substring from that position
(inclusive), or `none` when the name has no dot. -/
def suffixFrom (dn : List Char) : Option (List Char) :=
  if '.' ∈ dn then some (dn.dropWhile (fun c => ¬ c = '.')) else none

/-- SslContexts::getSSLCtxByExactDomain (SSLContextManager.cpp:1073-1085). -/
def getSSLCtxByExactDomain (s : SslContexts) (key : SSLContextKey) :
    Option ServerSSLContext :=
  dnFind s.dnMap key

/-- SslContexts::getSSLCtxBySuffix (SSLContextManager.cpp:1052-1071). -/
def getSSLCtxBySuffix (s : SslContexts) (key : SSLContextKey) :
    Option ServerSSLContext :=
  match suffixFrom key.dnString with
  | some suf => dnFind s.dnMap ⟨suf, key.certCrypto⟩
  | none => none

/-- SslContexts::getSSLCtx (SSLContextManager.cpp:1043-1050): exact match
first, then the wildcard suffix. -/
def SslContexts.getSSLCtx (s : SslContexts) (key : SSLContextKey) :
    Option ServerSSLContext :=
  match getSSLCtxByExactDomain s key with
  | some c => some c
  | none => getSSLCtxBySuffix s key

/-- SslContexts::isDefaultCtxExact (SSLContextManager.cpp:1021-1030). -/
def isDefaultCtxExact (s : SslContexts) (key : SSLContextKey) : Bool :=
  key ∈ s.defaultCtxKeys

/-- SslContexts::isDefaultCtxSuffix (SSLContextManager.cpp:1032-1041). -/
def isDefaultCtxSuffix (s : SslContexts) (key : SSLContextKey) : Bool :=
  match suffixFrom key.dnString with
  | some suf => isDefaultCtxExact s ⟨suf, key.certCrypto⟩
  | none => false

/-- SslContexts::isDefaultCtx (SSLContextManager.cpp:1016-1019). -/
def isDefaultCtx (s : SslContexts) (key : SSLContextKey) : Bool :=
  isDefaultCtxExact s key || isDefaultCtxSuffix s key

/-- SslContexts::getTicketKeys (SSLContextManager.cpp:352-365): scan `ctxs_`
in order and return the seeds held by the first context that has a ticket
manager (the loop breaks at the first manager, whatever its seeds). -/
def getTicketKeysAux (ctxs : List ServerSSLContext) : TLSTicketKeySeeds :=
  match ctxs with
  | [] => TLSTicketKeySeeds.empty
  | c :: rest =>
    match c.ticketManager with
    | some tm => tm
    | none => getTicketKeysAux rest

/-- SslContexts::getTicketKeys entry point. -/
def getTicketKeys (s : SslContexts) : TLSTicketKeySeeds :=
  getTicketKeysAux s.ctxs

/-! ### SNI callback: requested crypto tier

The hash/signature enums follow `folly::ssl::HashAlgorithm` and
`folly::ssl::SignatureAlgorithm`; the extension enum lists the members of
`folly::ssl::TLSExtension` this development needs. -/

/-- folly::ssl::HashAlgorithm (the members referenced here). -/
inductive HashAlgorithm where
  | NONE
  | MD5
  | SHA1
  | SHA224
  | SHA256
  | SHA384
  | SHA512
deriving DecidableEq, Repr

/-- folly::ssl::SignatureAlgorithm. -/
inductive SignatureAlgorithm where
  | ANONYMOUS
  | RSA
  | DSA
  | ECDSA
deriving DecidableEq, Repr

/-- folly::ssl::TLSExtension (a representative subset including SERVER_NAME). -/
inductive TLSExtension where
  | SERVER_NAME
  | MAX_FRAGMENT_LENGTH
  | SUPPORTED_GROUPS
  | SIGNATURE_ALGORITHMS
  | APPLICATION_LAYER_PROTOCOL_NEGOTIATION
  | PADDING
deriving DecidableEq, Repr

/-- folly::ssl::ClientHelloInfo: the fields read by serverNameCallback. -/
structure ClientHelloInfo where
  clientHelloSigAlgs : List (HashAlgorithm × SignatureAlgorithm)
  clientHelloExtensions : List TLSExtension
deriving DecidableEq, Repr

/-- Requested-crypto-tier derivation in SslContexts::serverNameCallback
(SSLContextManager.cpp:662-682): start at BEST_AVAILABLE; with a
ClientHelloInfo start at SHA1_SIGNATURE, upgrade when some sig-alg pair has
hash exactly SHA256, and upgrade when the extension list contains
SERVER_NAME. -/
def serverNameCallbackCryptoReq (clientInfo : Option ClientHelloInfo) : CertCrypto :=
  match clientInfo with
  | none => CertCrypto.BEST_AVAILABLE
  | some info =>
    let afterSigAlgs :=
      if info.clientHelloSigAlgs.any (fun p => p.1 = HashAlgorithm.SHA256) then
        CertCrypto.BEST_AVAILABLE
      else
        CertCrypto.SHA1_SIGNATURE
    if TLSExtension.SERVER_NAME ∈ info.clientHelloExtensions then
      CertCrypto.BEST_AVAILABLE
    else
      afterSigAlgs

/-- Modelled from the spec (refinement target for claim C4): the spec's
rule upgrades on any sig-alg hash that is SHA-256 *or stronger* (SHA-256,
SHA-384, SHA-512), and on the SNI extension; no ClientHelloInfo gives
BEST_AVAILABLE. -/
def specCryptoReq (clientInfo : Option ClientHelloInfo) : CertCrypto :=
  match clientInfo with
  | none => CertCrypto.BEST_AVAILABLE
  | some info =>
    if info.clientHelloSigAlgs.any (fun p =>
          p.1 = HashAlgorithm.SHA256 ∨ p.1 = HashAlgorithm.SHA384 ∨
            p.1 = HashAlgorithm.SHA512)
        ∨ TLSExtension.SERVER_NAME ∈ info.clientHelloExtensions then
      CertCrypto.BEST_AVAILABLE
    else
      CertCrypto.SHA1_SIGNATURE

/-! ### The manager facade -/

/-- The state of an SSLContextManager: the contexts index and the default
context slot (`defaultCtx_`). -/
structure SSLContextManager where
  contexts : SslContexts
  defaultCtx : Option ServerSSLContext
deriving DecidableEq, Repr

/-- SSLContextManager constructor: fresh index, empty default slot. -/
def SSLContextManager.create (strict : Bool) : SSLContextManager :=
  { contexts := SslContexts.create strict, defaultCtx := none }

/-- SSLContextManager::clear (SSLContextManager.cpp:1012-1014): clears the
index but leaves `defaultCtx_` alone. -/
def SSLContextManager.clear (m : SSLContextManager) : SSLContextManager :=
  { m with contexts := m.contexts.clear }

/-- SSLContextManager::getDefaultSSLCtx (SSLContextManager.cpp:1128-1130). -/
def SSLContextManager.getDefaultSSLCtx (m : SSLContextManager) :
    Option ServerSSLContext :=
  m.defaultCtx

/-- SSLContextManager::getSSLCtx (SSLContextManager.cpp:1132-1138): keys in
the default-key set resolve to the default context. -/
def SSLContextManager.getSSLCtx (m : SSLContextManager) (key : SSLContextKey) :
    Option ServerSSLContext :=
  if isDefaultCtx m.contexts key then m.defaultCtx
  else m.contexts.getSSLCtx key

/-- Errors surfaced by addSSLContextConfig. -/
inductive AddErr where
  | duplicateDefault
  | addCertificate (e : InsertErr)
deriving DecidableEq, Repr

/-- One SSLContextConfig, reduced to the fields that reach the index: the
certificate names and signature algorithm, the default flag, and the
identity and ticket manager of the ServerSSLContext the builder creates.
The OpenSSL plumbing (ciphers, DH params, curves, session cache, ...)
configures the context object and cannot affect the index. -/
structure SSLContextConfig where
  cert : CertInfo
  isDefault : Bool
  ctxId : Nat
  ticketManager : Option TLSTicketKeySeeds
deriving DecidableEq, Repr

/-- SslContexts::addSSLContextConfig (SSLContextManager.cpp:427-522),
restricted to its index-visible steps: build the ServerSSLContext, run the
default-context handling of ctxSetupByOpensslFeature (a second default
throws; the default slot is assigned before insertion), then `insert`.
State and `newDefault` are returned as they stand when a throw propagates. -/
def addSSLContextConfig (s : SslContexts) (cfg : SSLContextConfig)
    (newDefault : Option ServerSSLContext) :
    (SslContexts × Option ServerSSLContext) × Option AddErr :=
  let sslCtx : ServerSSLContext := ⟨cfg.ctxId, cfg.ticketManager⟩
  if cfg.isDefault ∧ newDefault.isSome then
    ((s, newDefault), some AddErr.duplicateDefault)
  else
    let newDefault1 := if cfg.isDefault then some sslCtx else newDefault
    match insert s cfg.cert sslCtx cfg.isDefault with
    | (s1, some e) => ((s1, newDefault1), some (AddErr.addCertificate e))
    | (s1, none) => ((s1, newDefault1), none)

/-- The config loop of SSLContextManager::resetSSLContextConfigs: builds
into the fresh contexts object, stopping at the first error. -/
def resetLoop (s : SslContexts) (d : Option ServerSSLContext)
    (cfgs : List SSLContextConfig) :
    (SslContexts × Option ServerSSLContext) × Option AddErr :=
  match cfgs with
  | [] => ((s, d), none)
  | cfg :: rest =>
    match addSSLContextConfig s cfg d with
    | (r, some e) => (r, some e)
    | ((s1, d1), none) => resetLoop s1 d1 rest

/-- SSLContextManager::resetSSLContextConfigs (SSLContextManager.cpp:367-392):
build a fresh SslContexts (same strict flag) from the configs, then swap the
index and the default slot in; an exception propagates before the swap, so
on an error the manager is returned as it was.  (The ticket-seed harvest for
a null seeds argument flows only into each new context's ticket manager,
which is part of the per-config data here.) -/
def resetSSLContextConfigs (m : SSLContextManager) (cfgs : List SSLContextConfig) :
    SSLContextManager × Option AddErr :=
  match resetLoop (SslContexts.create m.contexts.strict) none cfgs with
  | ((s1, d1), none) => ({ contexts := s1, defaultCtx := d1 }, none)
  | (_, some e) => (m, some e)

/-! ### Basic lemmas about the association-list primitives -/

/-- The keys of the dnMap association list. -/
def dnKeys (m : List (SSLContextKey × ServerSSLContext)) : List SSLContextKey :=
  m.map Prod.fst

theorem dnKeys_nil : dnKeys [] = [] := rfl

theorem dnKeys_cons {p : SSLContextKey × ServerSSLContext}
    {rest : List (SSLContextKey × ServerSSLContext)} :
    dnKeys (p :: rest) = p.1 :: dnKeys rest := rfl

theorem dnKeys_append {m l : List (SSLContextKey × ServerSSLContext)} :
    dnKeys (m ++ l) = dnKeys m ++ dnKeys l := by
  simp [dnKeys]

theorem dnFind_isSome_iff {m : List (SSLContextKey × ServerSSLContext)}
    {k : SSLContextKey} : (dnFind m k).isSome ↔ k ∈ dnKeys m := by
  induction m with
  | nil => simp [dnFind, dnKeys_nil]
  | cons p rest ih =>
    rw [dnKeys_cons, List.mem_cons]
    by_cases h : p.1 = k
    · simp [dnFind, h]
    · have h' : ¬ k = p.1 := fun hk => h hk.symm
      simp only [dnFind, if_neg h]
      rw [ih]
      constructor
      · intro hk
        exact Or.inr hk
      · rintro (hk | hk)
        · exact (h' hk).elim
        · exact hk

theorem dnFind_eq_none_iff {m : List (SSLContextKey × ServerSSLContext)}
    {k : SSLContextKey} : dnFind m k = none ↔ k ∉ dnKeys m := by
  rw [← dnFind_isSome_iff, Option.isSome_iff_ne_none]
  tauto

theorem dnFind_append_single_self {m : List (SSLContextKey × ServerSSLContext)}
    {k : SSLContextKey} {c : ServerSSLContext} (h : dnFind m k = none) :
    dnFind (m ++ [(k, c)]) k = some c := by
  induction m with
  | nil => simp [dnFind]
  | cons p rest ih =>
    by_cases hp : p.1 = k
    · simp [dnFind, hp] at h
    · simp only [dnFind, if_neg hp] at h
      simp only [List.cons_append, dnFind, if_neg hp]
      exact ih h

theorem dnFind_append_single_ne {m : List (SSLContextKey × ServerSSLContext)}
    {k k' : SSLContextKey} {c : ServerSSLContext} (h : ¬ k' = k) :
    dnFind (m ++ [(k, c)]) k' = dnFind m k' := by
  have h' : ¬ k = k' := fun hk => h hk.symm
  induction m with
  | nil => simp [dnFind, h']
  | cons p rest ih =>
    by_cases hp : p.1 = k'
    · simp [dnFind, hp]
    · simp only [List.cons_append, dnFind, if_neg hp]
      exact ih

theorem dnFind_replace_self {m : List (SSLContextKey × ServerSSLContext)}
    {k : SSLContextKey} {c d : ServerSSLContext} (h : dnFind m k = some d) :
    dnFind (dnReplace m k c) k = some c := by
  induction m with
  | nil => simp [dnFind] at h
  | cons p rest ih =>
    by_cases hp : p.1 = k
    · simp [dnReplace, dnFind, hp]
    · simp only [dnFind, if_neg hp] at h
      simp only [dnReplace, if_neg hp, dnFind]
      exact ih h

theorem dnFind_replace_ne {m : List (SSLContextKey × ServerSSLContext)}
    {k k' : SSLContextKey} {c : ServerSSLContext} (h : ¬ k' = k) :
    dnFind (dnReplace m k c) k' = dnFind m k' := by
  have h' : ¬ k = k' := fun hk => h hk.symm
  induction m with
  | nil => simp [dnReplace]
  | cons p rest ih =>
    by_cases hp : p.1 = k
    · simp only [dnReplace, if_pos hp, dnFind, if_neg h']
      have hq : ¬ p.1 = k' := by
        rw [hp]
        exact h'
      rw [if_neg hq]
    · simp only [dnReplace, if_neg hp, dnFind]
      by_cases hq : p.1 = k'
      · simp [hq]
      · rw [if_neg hq, if_neg hq]
        exact ih

theorem dnKeys_replace {m : List (SSLContextKey × ServerSSLContext)}
    {k : SSLContextKey} {c : ServerSSLContext} :
    dnKeys (dnReplace m k c) = dnKeys m := by
  induction m with
  | nil => rfl
  | cons p rest ih =>
    by_cases hp : p.1 = k
    · simp only [dnReplace]
      rw [if_pos hp, dnKeys_cons, dnKeys_cons, hp]
    · simp only [dnReplace]
      rw [if_neg hp, dnKeys_cons, dnKeys_cons, ih]

theorem dnErase_sublist {m : List (SSLContextKey × ServerSSLContext)}
    {k : SSLContextKey} : (dnErase m k).Sublist m := by
  induction m with
  | nil => simp [dnErase]
  | cons p rest ih =>
    simp only [dnErase]
    by_cases hp : p.1 = k
    · rw [if_pos hp]
      exact (List.Sublist.refl rest).cons p
    · rw [if_neg hp]
      exact ih.cons₂ p

theorem dnKeys_erase_nodup {m : List (SSLContextKey × ServerSSLContext)}
    {k : SSLContextKey} (h : (dnKeys m).Nodup) : (dnKeys (dnErase m k)).Nodup :=
  ((dnErase_sublist (m := m) (k := k)).map Prod.fst).nodup h

theorem dnFind_erase_ne {m : List (SSLContextKey × ServerSSLContext)}
    {k k' : SSLContextKey} (h : ¬ k' = k) :
    dnFind (dnErase m k) k' = dnFind m k' := by
  induction m with
  | nil => simp [dnErase]
  | cons p rest ih =>
    simp only [dnErase]
    by_cases hp : p.1 = k
    · rw [if_pos hp]
      have hq : ¬ p.1 = k' := by
        rw [hp]
        exact fun hk => h hk.symm
      simp only [dnFind, if_neg hq]
    · rw [if_neg hp]
      simp only [dnFind]
      by_cases hq : p.1 = k'
      · rw [if_pos hq, if_pos hq]
      · rw [if_neg hq, if_neg hq]
        exact ih

theorem dnFind_erase_self {m : List (SSLContextKey × ServerSSLContext)}
    {k : SSLContextKey} (h : (dnKeys m).Nodup) : dnFind (dnErase m k) k = none := by
  induction m with
  | nil => simp [dnErase, dnFind]
  | cons p rest ih =>
    rw [dnKeys_cons, List.nodup_cons] at h
    simp only [dnErase]
    by_cases hp : p.1 = k
    · rw [if_pos hp]
      rw [dnFind_eq_none_iff, ← hp]
      exact h.1
    · rw [if_neg hp]
      simp only [dnFind, if_neg hp]
      exact ih h.2

theorem mem_keyErase_of_ne {l : List SSLContextKey} {k k' : SSLContextKey}
    (h : ¬ k' = k) : k' ∈ keyErase l k ↔ k' ∈ l := by
  induction l with
  | nil => simp [keyErase]
  | cons a rest ih =>
    simp only [keyErase]
    by_cases ha : a = k
    · rw [if_pos ha, List.mem_cons]
      have h' : ¬ k' = a := by
        rw [ha]
        exact h
      constructor
      · intro hk
        exact Or.inr hk
      · rintro (hk | hk)
        · exact (h' hk).elim
        · exact hk
    · rw [if_neg ha, List.mem_cons, List.mem_cons, ih]

theorem keyErase_sublist {l : List SSLContextKey} {k : SSLContextKey} :
    (keyErase l k).Sublist l := by
  induction l with
  | nil => simp [keyErase]
  | cons a rest ih =>
    simp only [keyErase]
    by_cases ha : a = k
    · rw [if_pos ha]
      exact (List.Sublist.refl rest).cons a
    · rw [if_neg ha]
      exact ih.cons₂ a

theorem not_mem_keyErase_self {l : List SSLContextKey} {k : SSLContextKey}
    (h : l.Nodup) : k ∉ keyErase l k := by
  induction l with
  | nil => simp [keyErase]
  | cons a rest ih =>
    rw [List.nodup_cons] at h
    simp only [keyErase]
    by_cases ha : a = k
    · rw [if_pos ha, ← ha]
      exact fun hk => h.1 (ha ▸ hk)
    · rw [if_neg ha, List.mem_cons]
      rintro (hk | hk)
      · exact ha hk.symm
      · exact ih h.2 hk

/-! ### Well-formedness of the index and its preservation -/

/-- Well-formedness of an SslContexts state: the dnMap keys are unique (as
they are for a `std::unordered_map`), the default-key vector has no
duplicates, and no key is both in the dnMap and in the default-key vector
(the disjointness the source's `DCHECK`s assume). -/
def WellFormed (s : SslContexts) : Prop :=
  (dnKeys s.dnMap).Nodup ∧ s.defaultCtxKeys.Nodup ∧
    ∀ k, ¬ ((dnFind s.dnMap k).isSome ∧ k ∈ s.defaultCtxKeys)

theorem wellFormed_create {strict : Bool} : WellFormed (SslContexts.create strict) := by
  refine ⟨by simp [SslContexts.create, dnKeys_nil], by simp [SslContexts.create], ?_⟩
  intro k
  simp [SslContexts.create, dnFind]

theorem keys_append_single_nodup {l : List SSLContextKey} {k : SSLContextKey}
    (h : l.Nodup) (hk : k ∉ l) : (l ++ [k]).Nodup := by
  rw [List.nodup_append]
  refine ⟨h, List.nodup_singleton k, ?_⟩
  intro a ha hak
  rw [List.mem_singleton] at hak
  subst hak
  exact hk ha

theorem dnKeys_append_single_nodup {m : List (SSLContextKey × ServerSSLContext)}
    {k : SSLContextKey} {c : ServerSSLContext}
    (h : (dnKeys m).Nodup) (hk : k ∉ dnKeys m) :
    (dnKeys (m ++ [(k, c)])).Nodup := by
  rw [dnKeys_append]
  exact keys_append_single_nodup h hk

theorem wellFormed_insertIntoDnMap {s : SslContexts} {key : SSLContextKey}
    {c : ServerSSLContext} {ow : Bool} (h : WellFormed s) :
    WellFormed (insertIntoDnMap s key c ow) := by
  obtain ⟨hm, hd, hdisj⟩ := h
  cases hfind : dnFind s.dnMap key with
  | some c0 =>
    by_cases hc : c0 = c
    · simp only [insertIntoDnMap, hfind, if_pos hc]
      exact ⟨hm, hd, hdisj⟩
    · by_cases how : ow = true
      · simp only [insertIntoDnMap, hfind, if_neg hc, if_pos how]
        refine ⟨?_, hd, ?_⟩
        · show (dnKeys (dnReplace s.dnMap key c)).Nodup
          rw [dnKeys_replace]
          exact hm
        · intro k' hcon
          have h1 : (dnFind (dnReplace s.dnMap key c) k').isSome := hcon.1
          have h2 : k' ∈ s.defaultCtxKeys := hcon.2
          by_cases hk' : k' = key
          · subst hk'
            exact hdisj k' ⟨by rw [hfind]; rfl, h2⟩
          · rw [dnFind_replace_ne hk'] at h1
            exact hdisj k' ⟨h1, h2⟩
      · simp only [insertIntoDnMap, hfind, if_neg hc, if_neg how]
        exact ⟨hm, hd, hdisj⟩
  | none =>
    have hk : key ∉ dnKeys s.dnMap := dnFind_eq_none_iff.mp hfind
    by_cases hmem : key ∈ s.defaultCtxKeys
    · by_cases how : ow = true
      · simp only [insertIntoDnMap, hfind, if_pos hmem, if_pos how]
        refine ⟨dnKeys_append_single_nodup hm hk, keyErase_sublist.nodup hd, ?_⟩
        intro k' hcon
        have h1 : (dnFind (s.dnMap ++ [(key, c)]) k').isSome := hcon.1
        have h2 : k' ∈ keyErase s.defaultCtxKeys key := hcon.2
        by_cases hk' : k' = key
        · subst hk'
          exact not_mem_keyErase_self hd h2
        · rw [dnFind_append_single_ne hk'] at h1
          rw [mem_keyErase_of_ne hk'] at h2
          exact hdisj k' ⟨h1, h2⟩
      · simp only [insertIntoDnMap, hfind, if_pos hmem, if_neg how]
        exact ⟨hm, hd, hdisj⟩
    · simp only [insertIntoDnMap, hfind, if_neg hmem]
      refine ⟨dnKeys_append_single_nodup hm hk, hd, ?_⟩
      intro k' hcon
      have h1 : (dnFind (s.dnMap ++ [(key, c)]) k').isSome := hcon.1
      have h2 : k' ∈ s.defaultCtxKeys := hcon.2
      by_cases hk' : k' = key
      · subst hk'
        exact hmem h2
      · rw [dnFind_append_single_ne hk'] at h1
        exact hdisj k' ⟨h1, h2⟩

theorem wellFormed_insertIntoDefaultKeys {s : SslContexts} {key : SSLContextKey}
    {ow : Bool} (h : WellFormed s) :
    WellFormed (insertIntoDefaultKeys s key ow) := by
  obtain ⟨hm, hd, hdisj⟩ := h
  cases hfind : dnFind s.dnMap key with
  | some c0 =>
    have hmem : key ∉ s.defaultCtxKeys := by
      intro hcon
      exact hdisj key ⟨by rw [hfind]; rfl, hcon⟩
    by_cases how : ow = true
    · simp only [insertIntoDefaultKeys, hfind, if_pos how]
      refine ⟨dnKeys_erase_nodup hm, keys_append_single_nodup hd hmem, ?_⟩
      intro k' hcon
      have h1 : (dnFind (dnErase s.dnMap key) k').isSome := hcon.1
      have h2 : k' ∈ s.defaultCtxKeys ++ [key] := hcon.2
      by_cases hk' : k' = key
      · subst hk'
        rw [dnFind_erase_self hm] at h1
        exact Bool.noConfusion h1
      · rw [dnFind_erase_ne hk'] at h1
        rcases List.mem_append.mp h2 with hin | hin
        · exact hdisj k' ⟨h1, hin⟩
        · rw [List.mem_singleton] at hin
          exact hk' hin
    · simp only [insertIntoDefaultKeys, hfind, if_neg how]
      exact ⟨hm, hd, hdisj⟩
  | none =>
    by_cases hmem : key ∈ s.defaultCtxKeys
    · simp only [insertIntoDefaultKeys, hfind, if_pos hmem]
      exact ⟨hm, hd, hdisj⟩
    · simp only [insertIntoDefaultKeys, hfind, if_neg hmem]
      refine ⟨hm, keys_append_single_nodup hd hmem, ?_⟩
      intro k' hcon
      have h1 : (dnFind s.dnMap k').isSome := hcon.1
      have h2 : k' ∈ s.defaultCtxKeys ++ [key] := hcon.2
      rcases List.mem_append.mp h2 with hin | hin
      · exact hdisj k' ⟨h1, hin⟩
      · rw [List.mem_singleton] at hin
        subst hin
        rw [hfind] at h1
        exact Bool.noConfusion h1

theorem wellFormed_removeSSLContextConfig {s : SslContexts} {key : SSLContextKey}
    (h : WellFormed s) : WellFormed (removeSSLContextConfig s key).1 := by
  obtain ⟨hm, hd, hdisj⟩ := h
  by_cases hmem : key ∈ s.defaultCtxKeys
  · simp only [removeSSLContextConfig, if_pos hmem]
    exact ⟨hm, hd, hdisj⟩
  · cases hfind : dnFind s.dnMap key with
    | none =>
      simp only [removeSSLContextConfig, if_neg hmem, hfind]
      exact ⟨hm, hd, hdisj⟩
    | some c =>
      by_cases hc : c ∈ s.ctxs
      · simp only [removeSSLContextConfig, if_neg hmem, hfind, if_pos hc]
        refine ⟨dnKeys_erase_nodup hm, hd, ?_⟩
        intro k' hcon
        have h1 : (dnFind (dnErase s.dnMap key) k').isSome := hcon.1
        have h2 : k' ∈ s.defaultCtxKeys := hcon.2
        by_cases hk' : k' = key
        · subst hk'
          rw [dnFind_erase_self hm] at h1
          exact Bool.noConfusion h1
        · rw [dnFind_erase_ne hk'] at h1
          exact hdisj k' ⟨h1, h2⟩
      · simp only [removeSSLContextConfig, if_neg hmem, hfind, if_neg hc]
        exact ⟨hm, hd, hdisj⟩

/-! ### Claim C1: partition between dnMap and defaultCtxKeys -/

/-- One primitive mutation of the index: an insertIntoDnMap with any
overwrite flag, an insertIntoDefaultKeys with any overwrite flag, or a
removeSSLContextConfig. -/
inductive IndexOp where
  | insDn (key : SSLContextKey) (c : ServerSSLContext) (ow : Bool)
  | insDefault (key : SSLContextKey) (ow : Bool)
  | remove (key : SSLContextKey)
deriving DecidableEq, Repr

/-- Apply one primitive mutation (a removal's state is the state after the
call, whether or not it threw). -/
def applyOp (s : SslContexts) (op : IndexOp) : SslContexts :=
  match op with
  | IndexOp.insDn key c ow => insertIntoDnMap s key c ow
  | IndexOp.insDefault key ow => insertIntoDefaultKeys s key ow
  | IndexOp.remove key => (removeSSLContextConfig s key).1

/-- Apply a sequence of primitive mutations, oldest first. -/
def applyOps (s : SslContexts) (ops : List IndexOp) : SslContexts :=
  match ops with
  | [] => s
  | op :: rest => applyOps (applyOp s op) rest

theorem wellFormed_applyOp {s : SslContexts} {op : IndexOp} (h : WellFormed s) :
    WellFormed (applyOp s op) := by
  cases op with
  | insDn key c ow => exact wellFormed_insertIntoDnMap h
  | insDefault key ow => exact wellFormed_insertIntoDefaultKeys h
  | remove key => exact wellFormed_removeSSLContextConfig h

/-- C1.  Partition invariant: starting from any well-formed state (in
particular the fresh one), after any sequence of insertIntoDnMap /
insertIntoDefaultKeys calls (with any overwrite flags) and removals, the
state is still well-formed, and every SSLContextKey is in at most one of
the dnMap and the defaultCtxKeys vector, never in both. -/
theorem partition_invariant (s : SslContexts) (ops : List IndexOp)
    (h : WellFormed s) :
    WellFormed (applyOps s ops) ∧
      ∀ k, ¬ ((dnFind (applyOps s ops).dnMap k).isSome ∧
        k ∈ (applyOps s ops).defaultCtxKeys) := by
  induction ops generalizing s with
  | nil => exact ⟨h, h.2.2⟩
  | cons op rest ih =>
    have h1 : WellFormed (applyOp s op) := wellFormed_applyOp h
    simpa [applyOps] using ih (applyOp s op) h1

/-- Witness for C1 at a concrete run: start fresh, route a key into the
map, a second into the defaults, overwrite the first into the defaults,
then remove a key. -/
theorem partition_invariant_witness :
    WellFormed (SslContexts.create true) ∧
      (WellFormed (applyOps (SslContexts.create true)
          [IndexOp.insDn ⟨['a'], CertCrypto.BEST_AVAILABLE⟩ ⟨1, none⟩ true,
           IndexOp.insDefault ⟨['b'], CertCrypto.BEST_AVAILABLE⟩ true,
           IndexOp.insDefault ⟨['a'], CertCrypto.BEST_AVAILABLE⟩ true,
           IndexOp.remove ⟨['b'], CertCrypto.BEST_AVAILABLE⟩]) ∧
        ∀ k, ¬ ((dnFind (applyOps (SslContexts.create true)
          [IndexOp.insDn ⟨['a'], CertCrypto.BEST_AVAILABLE⟩ ⟨1, none⟩ true,
           IndexOp.insDefault ⟨['b'], CertCrypto.BEST_AVAILABLE⟩ true,
           IndexOp.insDefault ⟨['a'], CertCrypto.BEST_AVAILABLE⟩ true,
           IndexOp.remove ⟨['b'], CertCrypto.BEST_AVAILABLE⟩]).dnMap k).isSome ∧
          k ∈ (applyOps (SslContexts.create true)
          [IndexOp.insDn ⟨['a'], CertCrypto.BEST_AVAILABLE⟩ ⟨1, none⟩ true,
           IndexOp.insDefault ⟨['b'], CertCrypto.BEST_AVAILABLE⟩ true,
           IndexOp.insDefault ⟨['a'], CertCrypto.BEST_AVAILABLE⟩ true,
           IndexOp.remove ⟨['b'], CertCrypto.BEST_AVAILABLE⟩]).defaultCtxKeys)) :=
  ⟨wellFormed_create,
    partition_invariant (SslContexts.create true)
      [IndexOp.insDn ⟨['a'], CertCrypto.BEST_AVAILABLE⟩ ⟨1, none⟩ true,
       IndexOp.insDefault ⟨['b'], CertCrypto.BEST_AVAILABLE⟩ true,
       IndexOp.insDefault ⟨['a'], CertCrypto.BEST_AVAILABLE⟩ true,
       IndexOp.remove ⟨['b'], CertCrypto.BEST_AVAILABLE⟩] wellFormed_create⟩

/-! ### Claim C2: one-level wildcard matching -/

theorem stripWildcard_wildcard {s : List Char} (hne : s ≠ []) :
    stripWildcard ('*' :: '.' :: s) = Except.ok ('.' :: s) := by
  have hpos : 0 < s.length := List.length_pos.mpr hne
  have hc1 : ('*' :: '.' :: s).length > 2 ∧ ('*' :: '.' :: s).headI = '*' := by
    constructor
    · simp only [List.length_cons]
      omega
    · rfl
  unfold stripWildcard
  rw [if_pos hc1]
  simp

theorem normalizeDn_wildcard {s : List Char} (hs : '*' ∉ s) (hne : s ≠ []) :
    normalizeDn ('*' :: '.' :: s) = Except.ok ('.' :: s) := by
  have hdot : ¬ ('.' :: s = ['.']) := by
    intro hcon
    rw [List.cons.injEq] at hcon
    exact hne hcon.2
  have hstar : '*' ∉ ('.' :: s) := by
    intro hcon
    rcases List.mem_cons.mp hcon with h1 | h1
    · exact absurd h1 (by decide)
    · exact hs h1
  simp only [normalizeDn, stripWildcard_wildcard hne]
  rw [if_neg hdot, if_neg hstar]

theorem insertImpl_wildcard_state {s : List Char} {c : ServerSSLContext}
    (hs : '*' ∉ s) (hne : s ≠ []) :
    insertSSLCtxByDomainNameImpl (SslContexts.create true) ('*' :: '.' :: s) c
        CertCrypto.BEST_AVAILABLE false =
      Except.ok { ctxs := [], defaultCtxKeys := [], defaultCtxDomainName := [],
                  strict := true,
                  dnMap := [(⟨'.' :: s, CertCrypto.BEST_AVAILABLE⟩, c)] } := by
  simp only [insertSSLCtxByDomainNameImpl, normalizeDn_wildcard hs hne]
  simp [insertIntoDnMap, dnFind, SslContexts.create]

/-- C2.  Wildcard matching is exactly one level: after inserting the name
"*.s" (stored as ".s") at the BEST_AVAILABLE tier into a fresh index, a
suffix-path lookup for a query name q succeeds with that context if and
only if the substring of q from its first dot (inclusive) equals ".s".
In particular "a.b.c" matches stored "*.b.c", "a.b.c" does not match
stored "*.c", and "b.c" does not match stored "*.b.c". -/
theorem wildcard_one_level (s q : List Char) (c : ServerSSLContext)
    (st : SslContexts) (hs : '*' ∉ s) (hne : s ≠ [])
    (h : insertSSLCtxByDomainNameImpl (SslContexts.create true) ('*' :: '.' :: s) c
          CertCrypto.BEST_AVAILABLE false = Except.ok st) :
    (getSSLCtxBySuffix st ⟨q, CertCrypto.BEST_AVAILABLE⟩ = some c ↔
      suffixFrom q = some ('.' :: s)) := by
  rw [insertImpl_wildcard_state hs hne] at h
  injection h with h
  subst h
  simp only [getSSLCtxBySuffix]
  cases hsuf : suffixFrom q with
  | none => simp
  | some suf =>
    simp only [dnFind]
    constructor
    · intro hc
      by_cases he : (⟨'.' :: s, CertCrypto.BEST_AVAILABLE⟩ : SSLContextKey) =
          ⟨suf, CertCrypto.BEST_AVAILABLE⟩
      · rw [SSLContextKey.mk.injEq] at he
        rw [he.1]
      · rw [if_neg he] at hc
        exact Option.noConfusion hc
    · intro hsq
      rw [Option.some.injEq] at hsq
      subst hsq
      rw [if_pos rfl]

/-- Witness state: the fresh index after inserting "*.b.c". -/
def wildcardWitnessState : SslContexts :=
  { ctxs := [], defaultCtxKeys := [], defaultCtxDomainName := [], strict := true,
    dnMap := [(⟨['.', 'b', '.', 'c'], CertCrypto.BEST_AVAILABLE⟩, ⟨1, none⟩)] }

/-- Witness for C2: concrete run with cert name "*.b.c" and query "a.b.c";
the canonical instances of the claim follow by evaluation. -/
theorem wildcard_one_level_witness :
    ('*' ∉ ['b', '.', 'c']) ∧ (['b', '.', 'c'] ≠ ([] : List Char)) ∧
      insertSSLCtxByDomainNameImpl (SslContexts.create true)
          ['*', '.', 'b', '.', 'c'] ⟨1, none⟩ CertCrypto.BEST_AVAILABLE false =
        Except.ok wildcardWitnessState ∧
      (getSSLCtxBySuffix wildcardWitnessState
          ⟨['a', '.', 'b', '.', 'c'], CertCrypto.BEST_AVAILABLE⟩ = some ⟨1, none⟩ ↔
        suffixFrom ['a', '.', 'b', '.', 'c'] = some ['.', 'b', '.', 'c']) :=
  ⟨by decide, by decide, by rfl,
    wildcard_one_level ['b', '.', 'c'] ['a', '.', 'b', '.', 'c'] ⟨1, none⟩
      wildcardWitnessState (by decide) (by decide) (by rfl)⟩

/-! ### Branch equations and frame lemmas for the insertion primitives -/

theorem insertIntoDnMap_eq_of_same {s : SslContexts} {key : SSLContextKey}
    {c c0 : ServerSSLContext} {ow : Bool}
    (hfind : dnFind s.dnMap key = some c0) (hc : c0 = c) :
    insertIntoDnMap s key c ow = s := by
  simp [insertIntoDnMap, hfind, hc]

theorem insertIntoDnMap_eq_replace {s : SslContexts} {key : SSLContextKey}
    {c c0 : ServerSSLContext}
    (hfind : dnFind s.dnMap key = some c0) (hc : ¬ c0 = c) :
    insertIntoDnMap s key c true = { s with dnMap := dnReplace s.dnMap key c } := by
  simp [insertIntoDnMap, hfind, hc]

theorem insertIntoDnMap_eq_keep {s : SslContexts} {key : SSLContextKey}
    {c c0 : ServerSSLContext}
    (hfind : dnFind s.dnMap key = some c0) (hc : ¬ c0 = c) :
    insertIntoDnMap s key c false = s := by
  simp [insertIntoDnMap, hfind, hc]

theorem insertIntoDnMap_eq_steal {s : SslContexts} {key : SSLContextKey}
    {c : ServerSSLContext}
    (hfind : dnFind s.dnMap key = none) (hmem : key ∈ s.defaultCtxKeys) :
    insertIntoDnMap s key c true =
      { s with defaultCtxKeys := keyErase s.defaultCtxKeys key,
               dnMap := s.dnMap ++ [(key, c)] } := by
  simp [insertIntoDnMap, hfind, hmem]

theorem insertIntoDnMap_eq_leave {s : SslContexts} {key : SSLContextKey}
    {c : ServerSSLContext}
    (hfind : dnFind s.dnMap key = none) (hmem : key ∈ s.defaultCtxKeys) :
    insertIntoDnMap s key c false = s := by
  simp [insertIntoDnMap, hfind, hmem]

theorem insertIntoDnMap_eq_fresh {s : SslContexts} {key : SSLContextKey}
    {c : ServerSSLContext} {ow : Bool}
    (hfind : dnFind s.dnMap key = none) (hmem : key ∉ s.defaultCtxKeys) :
    insertIntoDnMap s key c ow = { s with dnMap := s.dnMap ++ [(key, c)] } := by
  simp [insertIntoDnMap, hfind, hmem]

theorem insertIntoDefaultKeys_eq_steal {s : SslContexts} {key : SSLContextKey}
    {c0 : ServerSSLContext} (hfind : dnFind s.dnMap key = some c0) :
    insertIntoDefaultKeys s key true =
      { s with dnMap := dnErase s.dnMap key,
               defaultCtxKeys := s.defaultCtxKeys ++ [key] } := by
  simp [insertIntoDefaultKeys, hfind]

theorem insertIntoDefaultKeys_eq_keep {s : SslContexts} {key : SSLContextKey}
    {c0 : ServerSSLContext} (hfind : dnFind s.dnMap key = some c0) :
    insertIntoDefaultKeys s key false = s := by
  simp [insertIntoDefaultKeys, hfind]

theorem insertIntoDefaultKeys_eq_dup {s : SslContexts} {key : SSLContextKey} {ow : Bool}
    (hfind : dnFind s.dnMap key = none) (hmem : key ∈ s.defaultCtxKeys) :
    insertIntoDefaultKeys s key ow = s := by
  simp [insertIntoDefaultKeys, hfind, hmem]

theorem insertIntoDefaultKeys_eq_fresh {s : SslContexts} {key : SSLContextKey} {ow : Bool}
    (hfind : dnFind s.dnMap key = none) (hmem : key ∉ s.defaultCtxKeys) :
    insertIntoDefaultKeys s key ow =
      { s with defaultCtxKeys := s.defaultCtxKeys ++ [key] } := by
  simp [insertIntoDefaultKeys, hfind, hmem]

theorem dnFind_insertIntoDnMap_self {s : SslContexts} {key : SSLContextKey}
    {c : ServerSSLContext} :
    dnFind (insertIntoDnMap s key c true).dnMap key = some c := by
  cases hfind : dnFind s.dnMap key with
  | some c0 =>
    by_cases hc : c0 = c
    · rw [insertIntoDnMap_eq_of_same hfind hc, hfind, hc]
    · rw [insertIntoDnMap_eq_replace hfind hc]
      exact dnFind_replace_self hfind
  | none =>
    by_cases hmem : key ∈ s.defaultCtxKeys
    · rw [insertIntoDnMap_eq_steal hfind hmem]
      exact dnFind_append_single_self hfind
    · rw [insertIntoDnMap_eq_fresh hfind hmem]
      exact dnFind_append_single_self hfind

theorem dnFind_insertIntoDnMap_ne {s : SslContexts} {key k' : SSLContextKey}
    {c : ServerSSLContext} {ow : Bool} (hk : ¬ k' = key) :
    dnFind (insertIntoDnMap s key c ow).dnMap k' = dnFind s.dnMap k' := by
  cases hfind : dnFind s.dnMap key with
  | some c0 =>
    by_cases hc : c0 = c
    · rw [insertIntoDnMap_eq_of_same hfind hc]
    · cases ow with
      | true =>
        rw [insertIntoDnMap_eq_replace hfind hc]
        exact dnFind_replace_ne hk
      | false => rw [insertIntoDnMap_eq_keep hfind hc]
  | none =>
    by_cases hmem : key ∈ s.defaultCtxKeys
    · cases ow with
      | true =>
        rw [insertIntoDnMap_eq_steal hfind hmem]
        exact dnFind_append_single_ne hk
      | false => rw [insertIntoDnMap_eq_leave hfind hmem]
    · rw [insertIntoDnMap_eq_fresh hfind hmem]
      exact dnFind_append_single_ne hk

theorem defaults_insertIntoDnMap_ne {s : SslContexts} {key k' : SSLContextKey}
    {c : ServerSSLContext} {ow : Bool} (hk : ¬ k' = key) :
    (k' ∈ (insertIntoDnMap s key c ow).defaultCtxKeys ↔ k' ∈ s.defaultCtxKeys) := by
  cases hfind : dnFind s.dnMap key with
  | some c0 =>
    by_cases hc : c0 = c
    · rw [insertIntoDnMap_eq_of_same hfind hc]
    · cases ow with
      | true => rw [insertIntoDnMap_eq_replace hfind hc]
      | false => rw [insertIntoDnMap_eq_keep hfind hc]
  | none =>
    by_cases hmem : key ∈ s.defaultCtxKeys
    · cases ow with
      | true =>
        rw [insertIntoDnMap_eq_steal hfind hmem]
        exact mem_keyErase_of_ne hk
      | false => rw [insertIntoDnMap_eq_leave hfind hmem]
    · rw [insertIntoDnMap_eq_fresh hfind hmem]

theorem insertIntoDnMap_weak_post {s : SslContexts} {key : SSLContextKey}
    {c : ServerSSLContext} :
    (dnFind (insertIntoDnMap s key c false).dnMap key).isSome ∨
      key ∈ (insertIntoDnMap s key c false).defaultCtxKeys := by
  cases hfind : dnFind s.dnMap key with
  | some c0 =>
    by_cases hc : c0 = c
    · rw [insertIntoDnMap_eq_of_same hfind hc]
      left
      rw [hfind]
      rfl
    · rw [insertIntoDnMap_eq_keep hfind hc]
      left
      rw [hfind]
      rfl
  | none =>
    by_cases hmem : key ∈ s.defaultCtxKeys
    · rw [insertIntoDnMap_eq_leave hfind hmem]
      right
      exact hmem
    · rw [insertIntoDnMap_eq_fresh hfind hmem]
      left
      rw [dnFind_append_single_self hfind]
      rfl

theorem insertIntoDnMap_noop_of_some {s : SslContexts} {key : SSLContextKey}
    {c d : ServerSSLContext} (hfind : dnFind s.dnMap key = some d) :
    insertIntoDnMap s key c false = s := by
  by_cases hc : d = c
  · exact insertIntoDnMap_eq_of_same hfind hc
  · exact insertIntoDnMap_eq_keep hfind hc

theorem insertIntoDnMap_ctxs {s : SslContexts} {key : SSLContextKey}
    {c : ServerSSLContext} {ow : Bool} :
    (insertIntoDnMap s key c ow).ctxs = s.ctxs := by
  cases hfind : dnFind s.dnMap key with
  | some c0 =>
    by_cases hc : c0 = c
    · rw [insertIntoDnMap_eq_of_same hfind hc]
    · cases ow with
      | true => rw [insertIntoDnMap_eq_replace hfind hc]
      | false => rw [insertIntoDnMap_eq_keep hfind hc]
  | none =>
    by_cases hmem : key ∈ s.defaultCtxKeys
    · cases ow with
      | true => rw [insertIntoDnMap_eq_steal hfind hmem]
      | false => rw [insertIntoDnMap_eq_leave hfind hmem]
    · rw [insertIntoDnMap_eq_fresh hfind hmem]

theorem insertIntoDnMap_strict {s : SslContexts} {key : SSLContextKey}
    {c : ServerSSLContext} {ow : Bool} :
    (insertIntoDnMap s key c ow).strict = s.strict := by
  cases hfind : dnFind s.dnMap key with
  | some c0 =>
    by_cases hc : c0 = c
    · rw [insertIntoDnMap_eq_of_same hfind hc]
    · cases ow with
      | true => rw [insertIntoDnMap_eq_replace hfind hc]
      | false => rw [insertIntoDnMap_eq_keep hfind hc]
  | none =>
    by_cases hmem : key ∈ s.defaultCtxKeys
    · cases ow with
      | true => rw [insertIntoDnMap_eq_steal hfind hmem]
      | false => rw [insertIntoDnMap_eq_leave hfind hmem]
    · rw [insertIntoDnMap_eq_fresh hfind hmem]

theorem insertIntoDnMap_domain {s : SslContexts} {key : SSLContextKey}
    {c : ServerSSLContext} {ow : Bool} :
    (insertIntoDnMap s key c ow).defaultCtxDomainName = s.defaultCtxDomainName := by
  cases hfind : dnFind s.dnMap key with
  | some c0 =>
    by_cases hc : c0 = c
    · rw [insertIntoDnMap_eq_of_same hfind hc]
    · cases ow with
      | true => rw [insertIntoDnMap_eq_replace hfind hc]
      | false => rw [insertIntoDnMap_eq_keep hfind hc]
  | none =>
    by_cases hmem : key ∈ s.defaultCtxKeys
    · cases ow with
      | true => rw [insertIntoDnMap_eq_steal hfind hmem]
      | false => rw [insertIntoDnMap_eq_leave hfind hmem]
    · rw [insertIntoDnMap_eq_fresh hfind hmem]

theorem dnFind_insertIntoDefaultKeys_ne {s : SslContexts} {key k' : SSLContextKey}
    {ow : Bool} (hk : ¬ k' = key) :
    dnFind (insertIntoDefaultKeys s key ow).dnMap k' = dnFind s.dnMap k' := by
  cases hfind : dnFind s.dnMap key with
  | some c0 =>
    cases ow with
    | true =>
      rw [insertIntoDefaultKeys_eq_steal hfind]
      exact dnFind_erase_ne hk
    | false => rw [insertIntoDefaultKeys_eq_keep hfind]
  | none =>
    by_cases hmem : key ∈ s.defaultCtxKeys
    · rw [insertIntoDefaultKeys_eq_dup hfind hmem]
    · rw [insertIntoDefaultKeys_eq_fresh hfind hmem]

theorem defaults_insertIntoDefaultKeys_mono {s : SslContexts} {key k' : SSLContextKey}
    {ow : Bool} (h : k' ∈ s.defaultCtxKeys) :
    k' ∈ (insertIntoDefaultKeys s key ow).defaultCtxKeys := by
  cases hfind : dnFind s.dnMap key with
  | some c0 =>
    cases ow with
    | true =>
      rw [insertIntoDefaultKeys_eq_steal hfind]
      exact List.mem_append_left _ h
    | false =>
      rw [insertIntoDefaultKeys_eq_keep hfind]
      exact h
  | none =>
    by_cases hmem : key ∈ s.defaultCtxKeys
    · rw [insertIntoDefaultKeys_eq_dup hfind hmem]
      exact h
    · rw [insertIntoDefaultKeys_eq_fresh hfind hmem]
      exact List.mem_append_left _ h

theorem insertIntoDefaultKeys_ctxs {s : SslContexts} {key : SSLContextKey} {ow : Bool} :
    (insertIntoDefaultKeys s key ow).ctxs = s.ctxs := by
  cases hfind : dnFind s.dnMap key with
  | some c0 =>
    cases ow with
    | true => rw [insertIntoDefaultKeys_eq_steal hfind]
    | false => rw [insertIntoDefaultKeys_eq_keep hfind]
  | none =>
    by_cases hmem : key ∈ s.defaultCtxKeys
    · rw [insertIntoDefaultKeys_eq_dup hfind hmem]
    · rw [insertIntoDefaultKeys_eq_fresh hfind hmem]

theorem insertIntoDefaultKeys_strict {s : SslContexts} {key : SSLContextKey} {ow : Bool} :
    (insertIntoDefaultKeys s key ow).strict = s.strict := by
  cases hfind : dnFind s.dnMap key with
  | some c0 =>
    cases ow with
    | true => rw [insertIntoDefaultKeys_eq_steal hfind]
    | false => rw [insertIntoDefaultKeys_eq_keep hfind]
  | none =>
    by_cases hmem : key ∈ s.defaultCtxKeys
    · rw [insertIntoDefaultKeys_eq_dup hfind hmem]
    · rw [insertIntoDefaultKeys_eq_fresh hfind hmem]

theorem insertIntoDefaultKeys_domain {s : SslContexts} {key : SSLContextKey} {ow : Bool} :
    (insertIntoDefaultKeys s key ow).defaultCtxDomainName = s.defaultCtxDomainName := by
  cases hfind : dnFind s.dnMap key with
  | some c0 =>
    cases ow with
    | true => rw [insertIntoDefaultKeys_eq_steal hfind]
    | false => rw [insertIntoDefaultKeys_eq_keep hfind]
  | none =>
    by_cases hmem : key ∈ s.defaultCtxKeys
    · rw [insertIntoDefaultKeys_eq_dup hfind hmem]
    · rw [insertIntoDefaultKeys_eq_fresh hfind hmem]

/-! ### Claim C3: SHA-1 fallback keys -/

theorem stripWildcard_plain {n : List Char} (hs : '*' ∉ n) :
    stripWildcard n = Except.ok n := by
  unfold stripWildcard
  rw [if_neg]
  intro hcon
  cases n with
  | nil => simp at hcon
  | cons a l =>
    have ha : a = '*' := by simpa [List.headI] using hcon.2
    subst ha
    exact hs (List.mem_cons_self _ _)

theorem normalizeDn_plain {n : List Char} (hs : '*' ∉ n) (hdot : n ≠ ['.']) :
    normalizeDn n = Except.ok n := by
  simp only [normalizeDn, stripWildcard_plain hs]
  rw [if_neg hdot, if_neg hs]

theorem insertImpl_sha1_eq {s : SslContexts} {n : List Char} {c : ServerSSLContext}
    (hs : '*' ∉ n) (hdot : n ≠ ['.']) :
    insertSSLCtxByDomainNameImpl s n c CertCrypto.SHA1_SIGNATURE false =
      Except.ok (insertIntoDnMap
        (insertIntoDnMap s ⟨n, CertCrypto.SHA1_SIGNATURE⟩ c true)
        ⟨n, CertCrypto.BEST_AVAILABLE⟩ c false) := by
  simp [insertSSLCtxByDomainNameImpl, normalizeDn_plain hs hdot]

theorem insertImpl_best_eq {s : SslContexts} {n : List Char} {c : ServerSSLContext}
    (hs : '*' ∉ n) (hdot : n ≠ ['.']) :
    insertSSLCtxByDomainNameImpl s n c CertCrypto.BEST_AVAILABLE false =
      Except.ok (insertIntoDnMap s ⟨n, CertCrypto.BEST_AVAILABLE⟩ c true) := by
  simp [insertSSLCtxByDomainNameImpl, normalizeDn_plain hs hdot]

theorem sha1_key_ne_best {n : List Char} :
    ¬ ((⟨n, CertCrypto.BEST_AVAILABLE⟩ : SSLContextKey) = ⟨n, CertCrypto.SHA1_SIGNATURE⟩) := by
  intro hcon
  rw [SSLContextKey.mk.injEq] at hcon
  exact CertCrypto.noConfusion hcon.2

theorem best_key_ne_sha1 {n : List Char} :
    ¬ ((⟨n, CertCrypto.SHA1_SIGNATURE⟩ : SSLContextKey) = ⟨n, CertCrypto.BEST_AVAILABLE⟩) := by
  intro hcon
  rw [SSLContextKey.mk.injEq] at hcon
  exact CertCrypto.noConfusion hcon.2

/-- C3.  SHA-1 fallback keys: a non-default insertion of a name at
SHA1_SIGNATURE leaves (name, SHA1_SIGNATURE) mapped to the inserted
context, leaves (name, BEST_AVAILABLE) resolvable (in the dnMap or in the
default-key set), and never overwrites a pre-existing (name,
BEST_AVAILABLE) dnMap entry.  Starting from a fresh index: a SHA-1-only
name answers BEST_AVAILABLE lookups with the SHA-1 context, and inserting
a stronger (BEST_AVAILABLE) context afterwards makes BEST_AVAILABLE
lookups return the stronger context while SHA1_SIGNATURE lookups still
return the weaker one. -/
theorem sha1_fallback (s : SslContexts) (n : List Char) (c c' : ServerSSLContext)
    (st : SslContexts) (hs : '*' ∉ n) (hdot : n ≠ ['.']) (hcc : ¬ c = c')
    (h : insertSSLCtxByDomainNameImpl s n c CertCrypto.SHA1_SIGNATURE false =
      Except.ok st) :
    dnFind st.dnMap ⟨n, CertCrypto.SHA1_SIGNATURE⟩ = some c ∧
    ((dnFind st.dnMap ⟨n, CertCrypto.BEST_AVAILABLE⟩).isSome ∨
      ⟨n, CertCrypto.BEST_AVAILABLE⟩ ∈ st.defaultCtxKeys) ∧
    (∀ d, dnFind s.dnMap ⟨n, CertCrypto.BEST_AVAILABLE⟩ = some d →
      dnFind st.dnMap ⟨n, CertCrypto.BEST_AVAILABLE⟩ = some d) ∧
    (∃ st0 st1,
      insertSSLCtxByDomainNameImpl (SslContexts.create true) n c
          CertCrypto.SHA1_SIGNATURE false = Except.ok st0 ∧
      st0.getSSLCtx ⟨n, CertCrypto.BEST_AVAILABLE⟩ = some c ∧
      st0.getSSLCtx ⟨n, CertCrypto.SHA1_SIGNATURE⟩ = some c ∧
      insertSSLCtxByDomainNameImpl st0 n c' CertCrypto.BEST_AVAILABLE false =
        Except.ok st1 ∧
      st1.getSSLCtx ⟨n, CertCrypto.BEST_AVAILABLE⟩ = some c' ∧
      st1.getSSLCtx ⟨n, CertCrypto.SHA1_SIGNATURE⟩ = some c) := by
  rw [insertImpl_sha1_eq hs hdot] at h
  injection h with h
  subst h
  refine ⟨?_, ?_, ?_, ?_⟩
  · rw [dnFind_insertIntoDnMap_ne best_key_ne_sha1]
    exact dnFind_insertIntoDnMap_self
  · exact insertIntoDnMap_weak_post
  · intro d hd
    have hd1 : dnFind (insertIntoDnMap s ⟨n, CertCrypto.SHA1_SIGNATURE⟩ c true).dnMap
        ⟨n, CertCrypto.BEST_AVAILABLE⟩ = some d := by
      rw [dnFind_insertIntoDnMap_ne sha1_key_ne_best]
      exact hd
    rw [insertIntoDnMap_noop_of_some hd1]
    exact hd1
  · -- the concrete scenario from the fresh index
    have h1 : insertIntoDnMap (SslContexts.create true)
        ⟨n, CertCrypto.SHA1_SIGNATURE⟩ c true =
        { ctxs := [], defaultCtxKeys := [], defaultCtxDomainName := [],
          strict := true, dnMap := [(⟨n, CertCrypto.SHA1_SIGNATURE⟩, c)] } := by
      rw [@insertIntoDnMap_eq_fresh (SslContexts.create true)
        ⟨n, CertCrypto.SHA1_SIGNATURE⟩ c true rfl
        (by simp [SslContexts.create])]
      rfl
    have h2 : insertIntoDnMap
        ({ ctxs := [], defaultCtxKeys := [], defaultCtxDomainName := [],
           strict := true,
           dnMap := [(⟨n, CertCrypto.SHA1_SIGNATURE⟩, c)] } : SslContexts)
        ⟨n, CertCrypto.BEST_AVAILABLE⟩ c false =
        { ctxs := [], defaultCtxKeys := [], defaultCtxDomainName := [],
          strict := true,
          dnMap := [(⟨n, CertCrypto.SHA1_SIGNATURE⟩, c),
                    (⟨n, CertCrypto.BEST_AVAILABLE⟩, c)] } := by
      rw [@insertIntoDnMap_eq_fresh
        { ctxs := [], defaultCtxKeys := [], defaultCtxDomainName := [],
          strict := true,
          dnMap := [(⟨n, CertCrypto.SHA1_SIGNATURE⟩, c)] }
        ⟨n, CertCrypto.BEST_AVAILABLE⟩ c false
        (by simp [dnFind]) (by simp)]
      rfl
    have hstate : insertSSLCtxByDomainNameImpl (SslContexts.create true) n c
        CertCrypto.SHA1_SIGNATURE false =
        Except.ok { ctxs := [], defaultCtxKeys := [], defaultCtxDomainName := [],
                    strict := true,
                    dnMap := [(⟨n, CertCrypto.SHA1_SIGNATURE⟩, c),
                              (⟨n, CertCrypto.BEST_AVAILABLE⟩, c)] } := by
      rw [insertImpl_sha1_eq hs hdot, h1, h2]
    refine ⟨{ ctxs := [], defaultCtxKeys := [], defaultCtxDomainName := [],
              strict := true,
              dnMap := [(⟨n, CertCrypto.SHA1_SIGNATURE⟩, c),
                        (⟨n, CertCrypto.BEST_AVAILABLE⟩, c)] }, _,
            hstate, ?_, ?_, insertImpl_best_eq hs hdot, ?_, ?_⟩
    · simp [SslContexts.getSSLCtx, getSSLCtxByExactDomain, dnFind]
    · simp [SslContexts.getSSLCtx, getSSLCtxByExactDomain, dnFind]
    · simp only [SslContexts.getSSLCtx, getSSLCtxByExactDomain,
        dnFind_insertIntoDnMap_self]
    · simp only [SslContexts.getSSLCtx, getSSLCtxByExactDomain,
        dnFind_insertIntoDnMap_ne best_key_ne_sha1]
      simp [dnFind]

/-- Witness state for C3: the fresh index after inserting "leg.ex" at SHA-1. -/
def sha1WitnessState : SslContexts :=
  { ctxs := [], defaultCtxKeys := [], defaultCtxDomainName := [], strict := true,
    dnMap := [(⟨['l', 'e', 'g', '.', 'e', 'x'], CertCrypto.SHA1_SIGNATURE⟩, ⟨1, none⟩),
              (⟨['l', 'e', 'g', '.', 'e', 'x'], CertCrypto.BEST_AVAILABLE⟩, ⟨1, none⟩)] }

/-- Witness for C3: concrete run with name "leg.ex" and two contexts. -/
theorem sha1_fallback_witness :
    ('*' ∉ ['l', 'e', 'g', '.', 'e', 'x']) ∧
      (['l', 'e', 'g', '.', 'e', 'x'] ≠ ['.']) ∧
      (¬ (⟨1, none⟩ : ServerSSLContext) = ⟨2, none⟩) ∧
      insertSSLCtxByDomainNameImpl (SslContexts.create true)
          ['l', 'e', 'g', '.', 'e', 'x'] ⟨1, none⟩
          CertCrypto.SHA1_SIGNATURE false = Except.ok sha1WitnessState ∧
      dnFind sha1WitnessState.dnMap
        ⟨['l', 'e', 'g', '.', 'e', 'x'], CertCrypto.SHA1_SIGNATURE⟩ =
          some ⟨1, none⟩ :=
  ⟨by decide, by decide, by decide, by rfl,
    (sha1_fallback (SslContexts.create true) ['l', 'e', 'g', '.', 'e', 'x']
      ⟨1, none⟩ ⟨2, none⟩ sha1WitnessState (by decide) (by decide) (by decide)
      (by rfl)).1⟩

/-! ### Claim C4: requested crypto tier in the SNI callback -/

/-- C4 counterexample: a ClientHello whose only sig-alg hash is SHA-384
(stronger than SHA-256) and which carries no SNI extension is left at
SHA1_SIGNATURE by the code, while the spec's "SHA-256 or stronger" rule
would give BEST_AVAILABLE. -/
theorem crypto_req_sha384_counterexample :
    serverNameCallbackCryptoReq
        (some ⟨[(HashAlgorithm.SHA384, SignatureAlgorithm.ECDSA)], []⟩) =
      CertCrypto.SHA1_SIGNATURE ∧
    specCryptoReq
        (some ⟨[(HashAlgorithm.SHA384, SignatureAlgorithm.ECDSA)], []⟩) =
      CertCrypto.BEST_AVAILABLE ∧
    serverNameCallbackCryptoReq
        (some ⟨[(HashAlgorithm.SHA384, SignatureAlgorithm.ECDSA)], []⟩) ≠
      specCryptoReq
        (some ⟨[(HashAlgorithm.SHA384, SignatureAlgorithm.ECDSA)], []⟩) := by
  refine ⟨rfl, rfl, ?_⟩
  decide

/-- C4 (amended).  Requested crypto tier: with no ClientHelloInfo the tier
is BEST_AVAILABLE; with one, the tier is BEST_AVAILABLE exactly when some
sig-alg pair has hash exactly SHA-256 or the extension list contains
SERVER_NAME, and SHA1_SIGNATURE otherwise.  (Hashes stronger than SHA-256,
such as SHA-384 or SHA-512, do not trigger the upgrade.) -/
theorem crypto_req_characterization (info : ClientHelloInfo) :
    serverNameCallbackCryptoReq none = CertCrypto.BEST_AVAILABLE ∧
    (serverNameCallbackCryptoReq (some info) = CertCrypto.BEST_AVAILABLE ↔
      ((∃ p ∈ info.clientHelloSigAlgs, p.1 = HashAlgorithm.SHA256) ∨
        TLSExtension.SERVER_NAME ∈ info.clientHelloExtensions)) ∧
    (serverNameCallbackCryptoReq (some info) = CertCrypto.SHA1_SIGNATURE ↔
      ¬ ((∃ p ∈ info.clientHelloSigAlgs, p.1 = HashAlgorithm.SHA256) ∨
        TLSExtension.SERVER_NAME ∈ info.clientHelloExtensions)) := by
  have hiff : serverNameCallbackCryptoReq (some info) = CertCrypto.BEST_AVAILABLE ↔
      ((∃ p ∈ info.clientHelloSigAlgs, p.1 = HashAlgorithm.SHA256) ∨
        TLSExtension.SERVER_NAME ∈ info.clientHelloExtensions) := by
    simp only [serverNameCallbackCryptoReq]
    by_cases hext : TLSExtension.SERVER_NAME ∈ info.clientHelloExtensions
    · simp [hext]
    · simp only [if_neg hext]
      constructor
      · intro hres
        by_cases hsig : info.clientHelloSigAlgs.any
            (fun p => p.1 = HashAlgorithm.SHA256) = true
        · left
          obtain ⟨p, hp, hps⟩ := List.any_eq_true.mp hsig
          exact ⟨p, hp, of_decide_eq_true hps⟩
        · rw [if_neg hsig] at hres
          exact absurd hres (by decide)
      · rintro (⟨p, hp, hps⟩ | hext2)
        · rw [if_pos (List.any_eq_true.mpr ⟨p, hp, decide_eq_true hps⟩)]
        · exact absurd hext2 hext
  refine ⟨rfl, hiff, ?_⟩
  constructor
  · intro hres hcon
    have hb := hiff.mpr hcon
    rw [hres] at hb
    exact CertCrypto.noConfusion hb
  · intro hcon
    cases hv : serverNameCallbackCryptoReq (some info) with
    | BEST_AVAILABLE => exact absurd (hiff.mp hv) hcon
    | SHA1_SIGNATURE => rfl

/-! ### Claim C5: strict-mode reset atomicity -/

/-- C5.  Strict-mode reset atomicity: when the manager is strict and some
configuration in a resetSSLContextConfigs call raises an error, the
exception propagates before the swap, so the manager — its live context
index and its default context — is exactly what it was before the call. -/
theorem reset_strict_atomic (m : SSLContextManager) (cfgs : List SSLContextConfig)
    (e : AddErr) (hstrict : m.contexts.strict = true)
    (herr : (resetSSLContextConfigs m cfgs).2 = some e) :
    (resetSSLContextConfigs m cfgs).1 = m ∧
    (∀ k, ((resetSSLContextConfigs m cfgs).1).getSSLCtx k = m.getSSLCtx k) ∧
    ((resetSSLContextConfigs m cfgs).1).getDefaultSSLCtx = m.getDefaultSSLCtx := by
  have hx : resetSSLContextConfigs m cfgs = (m, some e) := by
    unfold resetSSLContextConfigs at herr ⊢
    rcases hloop : resetLoop (SslContexts.create m.contexts.strict) none cfgs with
      ⟨⟨s1, d1⟩, err⟩
    rw [hloop] at herr
    cases err with
    | none => exact Option.noConfusion herr
    | some e2 =>
      have h2 : e2 = e := Option.some_inj.mp herr
      subst h2
      rfl
  rw [hx]
  exact ⟨rfl, fun k => rfl, rfl⟩

/-- Witness manager for C5: a strict manager with a populated index. -/
def resetWitnessManager : SSLContextManager :=
  { contexts := { ctxs := [⟨5, none⟩],
                  defaultCtxKeys := [⟨['d'], CertCrypto.BEST_AVAILABLE⟩],
                  defaultCtxDomainName := ['d'], strict := true,
                  dnMap := [(⟨['w'], CertCrypto.BEST_AVAILABLE⟩, ⟨5, none⟩)] },
    defaultCtx := some ⟨9, none⟩ }

/-- Witness config for C5: its certificate CN "b*d" has an embedded star,
which insertSSLCtxByDomainNameImpl rejects. -/
def resetWitnessBadConfig : SSLContextConfig :=
  { cert := ⟨['b', '*', 'd'], [], 0⟩, isDefault := false, ctxId := 3,
    ticketManager := none }

/-- Witness for C5: the bad config makes the strict reset fail and the
manager is returned unchanged. -/
theorem reset_strict_atomic_witness :
    resetWitnessManager.contexts.strict = true ∧
    (resetSSLContextConfigs resetWitnessManager [resetWitnessBadConfig]).2 =
      some (AddErr.addCertificate InsertErr.embeddedStar) ∧
    (resetSSLContextConfigs resetWitnessManager [resetWitnessBadConfig]).1 =
      resetWitnessManager :=
  ⟨rfl, by rfl,
    (reset_strict_atomic resetWitnessManager [resetWitnessBadConfig]
      (AddErr.addCertificate InsertErr.embeddedStar) rfl (by rfl)).1⟩

/-! ### Claim C6: removing a default key fails atomically -/

/-- C6.  Removal of a default key fails atomically: for every key present
in defaultCtxKeys, removeSSLContextConfig returns the cannot-remove-default
error with the whole index (dnMap, defaultCtxKeys, ctxs) unchanged; for a
key not in defaultCtxKeys this error is never raised. -/
theorem remove_default_atomic (s : SslContexts) (key : SSLContextKey) :
    (key ∈ s.defaultCtxKeys →
      removeSSLContextConfig s key = (s, some RemoveErr.cannotRemoveDefault)) ∧
    (key ∉ s.defaultCtxKeys →
      (removeSSLContextConfig s key).2 ≠ some RemoveErr.cannotRemoveDefault) := by
  constructor
  · intro hmem
    simp [removeSSLContextConfig, hmem]
  · intro hmem
    simp only [removeSSLContextConfig, if_neg hmem]
    cases hfind : dnFind s.dnMap key with
    | none => simp
    | some c =>
      by_cases hc : c ∈ s.ctxs
      · simp [hc]
      · simp [hc]

/-- Witness state for C6: one key in the default-key set. -/
def removeWitnessState : SslContexts :=
  { ctxs := [], defaultCtxKeys := [⟨['d'], CertCrypto.BEST_AVAILABLE⟩],
    defaultCtxDomainName := ['d'], strict := true, dnMap := [] }

/-- Witness for C6 at the concrete default key. -/
theorem remove_default_atomic_witness :
    (⟨['d'], CertCrypto.BEST_AVAILABLE⟩ : SSLContextKey) ∈
        removeWitnessState.defaultCtxKeys ∧
      removeSSLContextConfig removeWitnessState ⟨['d'], CertCrypto.BEST_AVAILABLE⟩ =
        (removeWitnessState, some RemoveErr.cannotRemoveDefault) :=
  ⟨by decide,
    (remove_default_atomic removeWitnessState ⟨['d'], CertCrypto.BEST_AVAILABLE⟩).1
      (by decide)⟩

/-! ### Claim C7: map/context-list correspondence (violated by the code) -/

/-- Certificate for the C7 run: CN "www", one DNS SAN "api", a non-SHA-1
signature. -/
def c7Cert : CertInfo := ⟨['w', 'w', 'w'], [['a', 'p', 'i']], 0⟩

/-- The context of the C7 run. -/
def c7Ctx : ServerSSLContext := ⟨7, none⟩

/-- State after inserting the two-name certificate non-default. -/
def c7State1 : SslContexts := (insert (SslContexts.create true) c7Cert c7Ctx false).1

/-- State after removing the key ("www", BEST_AVAILABLE). -/
def c7State2 : SslContexts :=
  (removeSSLContextConfig c7State1 ⟨['w', 'w', 'w'], CertCrypto.BEST_AVAILABLE⟩).1

/-- C7.  The claimed correspondence invariant is violated by the code: after
inserting one certificate under the two names "www" and "api" and removing
the key ("www", BEST_AVAILABLE), the dnMap still references the context
under ("api", BEST_AVAILABLE) while the ctxs list no longer contains it,
and the subsequent removal of ("api", BEST_AVAILABLE) fails the code's own
`CHECK(vIt != ctxs_.end())`. -/
theorem map_ctxs_correspondence_bug :
    (insert (SslContexts.create true) c7Cert c7Ctx false).2 = none ∧
    c7Ctx ∈ c7State1.ctxs ∧
    dnFind c7State1.dnMap ⟨['a', 'p', 'i'], CertCrypto.BEST_AVAILABLE⟩ = some c7Ctx ∧
    (removeSSLContextConfig c7State1
      ⟨['w', 'w', 'w'], CertCrypto.BEST_AVAILABLE⟩).2 = none ∧
    dnFind c7State2.dnMap ⟨['a', 'p', 'i'], CertCrypto.BEST_AVAILABLE⟩ = some c7Ctx ∧
    c7Ctx ∉ c7State2.ctxs ∧
    (removeSSLContextConfig c7State2
      ⟨['a', 'p', 'i'], CertCrypto.BEST_AVAILABLE⟩).2 = some RemoveErr.checkFailure := by
  decide

/-! ### Claim C8: ticket-seed harvest -/

/-- Index for the C8 counterexample: the first context has a ticket manager
holding empty seeds, the second holds non-empty seeds. -/
def c8State : SslContexts :=
  { ctxs := [⟨1, some TLSTicketKeySeeds.empty⟩,
             ⟨2, some ⟨["o"], ["c"], ["n"]⟩⟩],
    defaultCtxKeys := [], defaultCtxDomainName := [], strict := true, dnMap := [] }

/-- C8 counterexample: a context in the list has a ticket manager holding a
non-empty seed triple, yet getTicketKeys returns the empty triple, because
the loop stops at the first context that has a manager at all, not at the
first non-empty triple. -/
theorem ticket_keys_counterexample :
    getTicketKeys c8State = TLSTicketKeySeeds.empty ∧
    (∃ ctx ∈ c8State.ctxs, ∃ tm, ctx.ticketManager = some tm ∧
      tm ≠ TLSTicketKeySeeds.empty) := by
  constructor
  · rfl
  · refine ⟨⟨2, some ⟨["o"], ["c"], ["n"]⟩⟩, by decide,
      ⟨["o"], ["c"], ["n"]⟩, rfl, by decide⟩

theorem getTicketKeysAux_eq (l : List ServerSSLContext) :
    getTicketKeysAux l =
      ((l.find? (fun c => c.ticketManager.isSome)).bind
        (fun c => c.ticketManager)).getD TLSTicketKeySeeds.empty := by
  induction l with
  | nil => rfl
  | cons c rest ih =>
    cases htm : c.ticketManager with
    | some tm =>
      have hfind : (c :: rest).find? (fun x => x.ticketManager.isSome) = some c :=
        List.find?_cons_of_pos rest (by simp [htm])
      rw [hfind]
      simp [getTicketKeysAux, htm]
    | none =>
      have hfind : (c :: rest).find? (fun x => x.ticketManager.isSome) =
          rest.find? (fun x => x.ticketManager.isSome) :=
        List.find?_cons_of_neg rest (by simp [htm])
      rw [hfind]
      simpa [getTicketKeysAux, htm] using ih

/-- C8 (amended).  getTicketKeys iterates the contexts in order and returns
the seed triple held by the first context that has a ticket manager (the
empty triple when no context has one); the seeds of later contexts —
non-empty or not — are never consulted. -/
theorem ticket_keys_first_manager (s : SslContexts) :
    getTicketKeys s =
      ((s.ctxs.find? (fun c => c.ticketManager.isSome)).bind
        (fun c => c.ticketManager)).getD TLSTicketKeySeeds.empty :=
  getTicketKeysAux_eq s.ctxs

/-! ### Claim C10: clear leaves the default slot intact -/

/-- C10.  SSLContextManager::clear empties the index — the contexts list,
the dnMap and the default-key set — so every subsequent index lookup
misses, but it does not touch the manager's default-context slot:
getDefaultSSLCtx returns what it returned before. -/
theorem clear_frame (m : SSLContextManager) :
    (m.clear).getDefaultSSLCtx = m.getDefaultSSLCtx ∧
    (m.clear).contexts.ctxs = [] ∧
    (m.clear).contexts.dnMap = [] ∧
    (m.clear).contexts.defaultCtxKeys = [] ∧
    (∀ k, SslContexts.getSSLCtx (m.clear).contexts k = none ∧
      isDefaultCtx (m.clear).contexts k = false ∧
      getSSLCtxByExactDomain (m.clear).contexts k = none ∧
      getSSLCtxBySuffix (m.clear).contexts k = none) := by
  refine ⟨rfl, rfl, rfl, rfl, ?_⟩
  intro k
  refine ⟨?_, ?_, rfl, ?_⟩
  · simp [SSLContextManager.clear, SslContexts.clear, SslContexts.getSSLCtx,
      getSSLCtxByExactDomain, getSSLCtxBySuffix, dnFind]
    cases suffixFrom k.dnString with
    | none => rfl
    | some suf => rfl
  · simp [SSLContextManager.clear, SslContexts.clear, isDefaultCtx,
      isDefaultCtxExact, isDefaultCtxSuffix]
    cases suffixFrom k.dnString with
    | none => rfl
    | some suf => rfl
  · simp [SSLContextManager.clear, SslContexts.clear, getSSLCtxBySuffix, dnFind]
    cases suffixFrom k.dnString with
    | none => rfl
    | some suf => rfl

/-! ### Claim C9: insertion idempotence — per-name machinery -/

theorem dnFind_erase_none {m : List (SSLContextKey × ServerSSLContext)}
    {k q : SSLContextKey} (h : dnFind m q = none) :
    dnFind (dnErase m k) q = none := by
  rw [dnFind_eq_none_iff] at h ⊢
  intro hcon
  exact h (((dnErase_sublist (m := m) (k := k)).map Prod.fst).mem hcon)

theorem insertIntoDefaultKeys_false_dnMap {s : SslContexts} {k : SSLContextKey} :
    (insertIntoDefaultKeys s k false).dnMap = s.dnMap := by
  cases hfind : dnFind s.dnMap k with
  | some c0 => rw [insertIntoDefaultKeys_eq_keep hfind]
  | none =>
    by_cases hmem : k ∈ s.defaultCtxKeys
    · rw [insertIntoDefaultKeys_eq_dup hfind hmem]
    · rw [insertIntoDefaultKeys_eq_fresh hfind hmem]

theorem insertIntoDnMap_false_defaults {s : SslContexts} {k : SSLContextKey}
    {c : ServerSSLContext} :
    (insertIntoDnMap s k c false).defaultCtxKeys = s.defaultCtxKeys := by
  cases hfind : dnFind s.dnMap k with
  | some c0 =>
    by_cases hc : c0 = c
    · rw [insertIntoDnMap_eq_of_same hfind hc]
    · rw [insertIntoDnMap_eq_keep hfind hc]
  | none =>
    by_cases hmem : k ∈ s.defaultCtxKeys
    · rw [insertIntoDnMap_eq_leave hfind hmem]
    · rw [insertIntoDnMap_eq_fresh hfind hmem]

theorem dnFind_insertIntoDefaultKeys_none {s : SslContexts} {k q : SSLContextKey}
    {b : Bool} (h : dnFind s.dnMap q = none) :
    dnFind (insertIntoDefaultKeys s k b).dnMap q = none := by
  cases hfind : dnFind s.dnMap k with
  | some c0 =>
    cases b with
    | true =>
      rw [insertIntoDefaultKeys_eq_steal hfind]
      exact dnFind_erase_none h
    | false =>
      rw [insertIntoDefaultKeys_eq_keep hfind]
      exact h
  | none =>
    by_cases hmem : k ∈ s.defaultCtxKeys
    · rw [insertIntoDefaultKeys_eq_dup hfind hmem]
      exact h
    · rw [insertIntoDefaultKeys_eq_fresh hfind hmem]
      exact h

theorem insertIntoDefaultKeys_self_post {s : SslContexts} {k : SSLContextKey}
    (hm : (dnKeys s.dnMap).Nodup) :
    dnFind (insertIntoDefaultKeys s k true).dnMap k = none ∧
      k ∈ (insertIntoDefaultKeys s k true).defaultCtxKeys := by
  cases hfind : dnFind s.dnMap k with
  | some c0 =>
    rw [insertIntoDefaultKeys_eq_steal hfind]
    exact ⟨dnFind_erase_self hm, List.mem_append_right _ (by simp)⟩
  | none =>
    by_cases hmem : k ∈ s.defaultCtxKeys
    · rw [insertIntoDefaultKeys_eq_dup hfind hmem]
      exact ⟨hfind, hmem⟩
    · rw [insertIntoDefaultKeys_eq_fresh hfind hmem]
      exact ⟨hfind, List.mem_append_right _ (by simp)⟩

theorem insertIntoDefaultKeys_weak_post {s : SslContexts} {k : SSLContextKey} :
    (dnFind (insertIntoDefaultKeys s k false).dnMap k).isSome = true ∨
      k ∈ (insertIntoDefaultKeys s k false).defaultCtxKeys := by
  cases hfind : dnFind s.dnMap k with
  | some c0 =>
    rw [insertIntoDefaultKeys_eq_keep hfind]
    left
    rw [hfind]
    rfl
  | none =>
    by_cases hmem : k ∈ s.defaultCtxKeys
    · rw [insertIntoDefaultKeys_eq_dup hfind hmem]
      right
      exact hmem
    · rw [insertIntoDefaultKeys_eq_fresh hfind hmem]
      right
      exact List.mem_append_right _ (by simp)

/-- The state transformation insertSSLCtxByDomainNameImpl performs once the
raw name has normalized to `d`. -/
def nameInsert (st : SslContexts) (d : List Char) (c : ServerSSLContext)
    (crypto : CertCrypto) (dflt : Bool) : SslContexts :=
  let s1 := if dflt then insertIntoDefaultKeys st ⟨d, crypto⟩ true
            else insertIntoDnMap st ⟨d, crypto⟩ c true
  if crypto ≠ CertCrypto.BEST_AVAILABLE then
    (if dflt then insertIntoDefaultKeys s1 ⟨d, CertCrypto.BEST_AVAILABLE⟩ false
     else insertIntoDnMap s1 ⟨d, CertCrypto.BEST_AVAILABLE⟩ c false)
  else s1

theorem insertImpl_eq_nameInsert {st : SslContexts} {n d : List Char}
    {c : ServerSSLContext} {crypto : CertCrypto} {dflt : Bool}
    (hn : normalizeDn n = Except.ok d) :
    insertSSLCtxByDomainNameImpl st n c crypto dflt =
      Except.ok (nameInsert st d c crypto dflt) := by
  simp only [insertSSLCtxByDomainNameImpl, hn, nameInsert]
  cases crypto <;> cases dflt <;> simp

theorem insertImpl_error {st : SslContexts} {n : List Char} {c : ServerSSLContext}
    {crypto : CertCrypto} {dflt : Bool} {er : InsertErr}
    (hn : normalizeDn n = Except.error er) :
    insertSSLCtxByDomainNameImpl st n c crypto dflt = Except.error er := by
  simp only [insertSSLCtxByDomainNameImpl, hn]

theorem wrapper_ok_of_impl_ok {st s1 : SslContexts} {n : List Char}
    {c : ServerSSLContext} {crypto : CertCrypto} {dflt : Bool}
    (h : insertSSLCtxByDomainNameImpl st n c crypto dflt = Except.ok s1) :
    insertSSLCtxByDomainName st n c crypto dflt = Except.ok s1 := by
  simp [insertSSLCtxByDomainName, h]

theorem wrapper_lax_of_impl_error {st : SslContexts} {n : List Char}
    {c : ServerSSLContext} {crypto : CertCrypto} {dflt : Bool} {er : InsertErr}
    (h : insertSSLCtxByDomainNameImpl st n c crypto dflt = Except.error er)
    (hlax : st.strict = false) :
    insertSSLCtxByDomainName st n c crypto dflt = Except.ok st := by
  simp [insertSSLCtxByDomainName, h, hlax]

theorem wrapper_strict_of_impl_error {st : SslContexts} {n : List Char}
    {c : ServerSSLContext} {crypto : CertCrypto} {dflt : Bool} {er : InsertErr}
    (h : insertSSLCtxByDomainNameImpl st n c crypto dflt = Except.error er)
    (hstrict : st.strict = true) :
    insertSSLCtxByDomainName st n c crypto dflt = Except.error er := by
  simp [insertSSLCtxByDomainName, h, hstrict]

theorem insertNames_cons_ok {st s1 : SslContexts} {n : List Char}
    {names : List (List Char)} {c : ServerSSLContext} {crypto : CertCrypto}
    {dflt : Bool}
    (h : insertSSLCtxByDomainName st n c crypto dflt = Except.ok s1) :
    insertNames st (n :: names) c crypto dflt = insertNames s1 names c crypto dflt := by
  simp [insertNames, h]

theorem insertNames_cons_error {st : SslContexts} {n : List Char}
    {names : List (List Char)} {c : ServerSSLContext} {crypto : CertCrypto}
    {dflt : Bool} {er : InsertErr}
    (h : insertSSLCtxByDomainName st n c crypto dflt = Except.error er) :
    insertNames st (n :: names) c crypto dflt = (st, some er) := by
  simp [insertNames, h]

/-- The facts a completed insertion of normalized name `d` (context `c`,
crypto tier `crypto`, default flag `dflt`) leaves in the index; they make a
repeated insertion of the same name a no-op. -/
def NameSettled (st : SslContexts) (d : List Char) (crypto : CertCrypto)
    (c : ServerSSLContext) (dflt : Bool) : Prop :=
  (dflt = true → dnFind st.dnMap ⟨d, crypto⟩ = none ∧
    ⟨d, crypto⟩ ∈ st.defaultCtxKeys) ∧
  (dflt = false → dnFind st.dnMap ⟨d, crypto⟩ = some c) ∧
  (crypto ≠ CertCrypto.BEST_AVAILABLE →
    (dnFind st.dnMap ⟨d, CertCrypto.BEST_AVAILABLE⟩).isSome = true ∨
      ⟨d, CertCrypto.BEST_AVAILABLE⟩ ∈ st.defaultCtxKeys)

theorem nameInsert_noop {st : SslContexts} {d : List Char} {c : ServerSSLContext}
    {crypto : CertCrypto} {dflt : Bool}
    (hset : NameSettled st d crypto c dflt) :
    nameInsert st d c crypto dflt = st := by
  obtain ⟨hT, hF, hW⟩ := hset
  cases dflt with
  | true =>
    obtain ⟨hfind, hmem⟩ := hT rfl
    have hmain : insertIntoDefaultKeys st ⟨d, crypto⟩ true = st :=
      insertIntoDefaultKeys_eq_dup hfind hmem
    cases crypto with
    | BEST_AVAILABLE => simp [nameInsert, hmain]
    | SHA1_SIGNATURE =>
      cases hfw : dnFind st.dnMap ⟨d, CertCrypto.BEST_AVAILABLE⟩ with
      | some d0 => simp [nameInsert, hmain, insertIntoDefaultKeys_eq_keep hfw]
      | none =>
        rcases hW (by decide) with hs | hm2
        · rw [hfw] at hs
          exact absurd hs (by decide)
        · simp [nameInsert, hmain, insertIntoDefaultKeys_eq_dup hfw hm2]
  | false =>
    have hfind := hF rfl
    have hmain : insertIntoDnMap st ⟨d, crypto⟩ c true = st :=
      insertIntoDnMap_eq_of_same hfind rfl
    cases crypto with
    | BEST_AVAILABLE => simp [nameInsert, hmain]
    | SHA1_SIGNATURE =>
      cases hfw : dnFind st.dnMap ⟨d, CertCrypto.BEST_AVAILABLE⟩ with
      | some d0 => simp [nameInsert, hmain, insertIntoDnMap_noop_of_some hfw]
      | none =>
        rcases hW (by decide) with hs | hm2
        · rw [hfw] at hs
          exact absurd hs (by decide)
        · simp [nameInsert, hmain, insertIntoDnMap_eq_leave hfw hm2]

theorem nameSettled_post {st : SslContexts} {d : List Char} {c : ServerSSLContext}
    {crypto : CertCrypto} {dflt : Bool} (hm : (dnKeys st.dnMap).Nodup) :
    NameSettled (nameInsert st d c crypto dflt) d crypto c dflt := by
  cases dflt with
  | true =>
    refine ⟨fun _ => ?_, fun hcon => Bool.noConfusion hcon, fun hcr => ?_⟩
    · obtain ⟨hfind, hmem⟩ :=
        insertIntoDefaultKeys_self_post (s := st) (k := ⟨d, crypto⟩) hm
      cases crypto with
      | BEST_AVAILABLE =>
        simpa [nameInsert] using ⟨hfind, hmem⟩
      | SHA1_SIGNATURE =>
        have hgoal : nameInsert st d c CertCrypto.SHA1_SIGNATURE true =
            insertIntoDefaultKeys
              (insertIntoDefaultKeys st ⟨d, CertCrypto.SHA1_SIGNATURE⟩ true)
              ⟨d, CertCrypto.BEST_AVAILABLE⟩ false := by
          simp [nameInsert]
        rw [hgoal]
        constructor
        · rw [insertIntoDefaultKeys_false_dnMap]
          exact hfind
        · exact defaults_insertIntoDefaultKeys_mono hmem
    · cases crypto with
      | BEST_AVAILABLE => exact absurd rfl hcr
      | SHA1_SIGNATURE =>
        have hgoal : nameInsert st d c CertCrypto.SHA1_SIGNATURE true =
            insertIntoDefaultKeys
              (insertIntoDefaultKeys st ⟨d, CertCrypto.SHA1_SIGNATURE⟩ true)
              ⟨d, CertCrypto.BEST_AVAILABLE⟩ false := by
          simp [nameInsert]
        rw [hgoal]
        exact insertIntoDefaultKeys_weak_post
  | false =>
    refine ⟨fun hcon => Bool.noConfusion hcon, fun _ => ?_, fun hcr => ?_⟩
    · cases crypto with
      | BEST_AVAILABLE =>
        simpa [nameInsert] using
          @dnFind_insertIntoDnMap_self st ⟨d, CertCrypto.BEST_AVAILABLE⟩ c
      | SHA1_SIGNATURE =>
        have hgoal : nameInsert st d c CertCrypto.SHA1_SIGNATURE false =
            insertIntoDnMap
              (insertIntoDnMap st ⟨d, CertCrypto.SHA1_SIGNATURE⟩ c true)
              ⟨d, CertCrypto.BEST_AVAILABLE⟩ c false := by
          simp [nameInsert]
        rw [hgoal]
        rw [dnFind_insertIntoDnMap_ne best_key_ne_sha1]
        exact dnFind_insertIntoDnMap_self
    · cases crypto with
      | BEST_AVAILABLE => exact absurd rfl hcr
      | SHA1_SIGNATURE =>
        have hgoal : nameInsert st d c CertCrypto.SHA1_SIGNATURE false =
            insertIntoDnMap
              (insertIntoDnMap st ⟨d, CertCrypto.SHA1_SIGNATURE⟩ c true)
              ⟨d, CertCrypto.BEST_AVAILABLE⟩ c false := by
          simp [nameInsert]
        rw [hgoal]
        exact insertIntoDnMap_weak_post

theorem nameInsert_best_true {st : SslContexts} {d : List Char} {c : ServerSSLContext} :
    nameInsert st d c CertCrypto.BEST_AVAILABLE true =
      insertIntoDefaultKeys st ⟨d, CertCrypto.BEST_AVAILABLE⟩ true := by
  simp [nameInsert]

theorem nameInsert_best_false {st : SslContexts} {d : List Char} {c : ServerSSLContext} :
    nameInsert st d c CertCrypto.BEST_AVAILABLE false =
      insertIntoDnMap st ⟨d, CertCrypto.BEST_AVAILABLE⟩ c true := by
  simp [nameInsert]

theorem nameInsert_sha1_true {st : SslContexts} {d : List Char} {c : ServerSSLContext} :
    nameInsert st d c CertCrypto.SHA1_SIGNATURE true =
      insertIntoDefaultKeys
        (insertIntoDefaultKeys st ⟨d, CertCrypto.SHA1_SIGNATURE⟩ true)
        ⟨d, CertCrypto.BEST_AVAILABLE⟩ false := by
  simp [nameInsert]

theorem nameInsert_sha1_false {st : SslContexts} {d : List Char} {c : ServerSSLContext} :
    nameInsert st d c CertCrypto.SHA1_SIGNATURE false =
      insertIntoDnMap
        (insertIntoDnMap st ⟨d, CertCrypto.SHA1_SIGNATURE⟩ c true)
        ⟨d, CertCrypto.BEST_AVAILABLE⟩ c false := by
  simp [nameInsert]

theorem key_ne_of_name_ne {d e : List Char} {x y : CertCrypto} (h : ¬ d = e) :
    ¬ ((⟨d, x⟩ : SSLContextKey) = ⟨e, y⟩) := by
  intro hcon
  rw [SSLContextKey.mk.injEq] at hcon
  exact h hcon.1

theorem nameSettled_preserved {st : SslContexts} {d e : List Char}
    {c : ServerSSLContext} {crypto : CertCrypto} {dflt : Bool}
    (hm : (dnKeys st.dnMap).Nodup)
    (hset : NameSettled st d crypto c dflt) :
    NameSettled (nameInsert st e c crypto dflt) d crypto c dflt := by
  by_cases hde : d = e
  · subst hde
    exact nameSettled_post hm
  obtain ⟨hT, hF, hW⟩ := hset
  cases dflt with
  | true =>
    refine ⟨fun _ => ?_, fun hcon => Bool.noConfusion hcon, fun hcr => ?_⟩
    · obtain ⟨hfind, hmem⟩ := hT rfl
      cases crypto with
      | BEST_AVAILABLE =>
        rw [nameInsert_best_true]
        exact ⟨dnFind_insertIntoDefaultKeys_none hfind,
          defaults_insertIntoDefaultKeys_mono hmem⟩
      | SHA1_SIGNATURE =>
        rw [nameInsert_sha1_true]
        exact ⟨dnFind_insertIntoDefaultKeys_none
            (dnFind_insertIntoDefaultKeys_none hfind),
          defaults_insertIntoDefaultKeys_mono
            (defaults_insertIntoDefaultKeys_mono hmem)⟩
    · cases crypto with
      | BEST_AVAILABLE => exact absurd rfl hcr
      | SHA1_SIGNATURE =>
        rw [nameInsert_sha1_true]
        rcases hW (by decide) with hs | hmem2
        · left
          rw [insertIntoDefaultKeys_false_dnMap,
            dnFind_insertIntoDefaultKeys_ne (key_ne_of_name_ne hde)]
          exact hs
        · right
          exact defaults_insertIntoDefaultKeys_mono
            (defaults_insertIntoDefaultKeys_mono hmem2)
  | false =>
    refine ⟨fun hcon => Bool.noConfusion hcon, fun _ => ?_, fun hcr => ?_⟩
    · have hfind := hF rfl
      cases crypto with
      | BEST_AVAILABLE =>
        rw [nameInsert_best_false,
          dnFind_insertIntoDnMap_ne (key_ne_of_name_ne hde)]
        exact hfind
      | SHA1_SIGNATURE =>
        rw [nameInsert_sha1_false,
          dnFind_insertIntoDnMap_ne (key_ne_of_name_ne hde),
          dnFind_insertIntoDnMap_ne (key_ne_of_name_ne hde)]
        exact hfind
    · cases crypto with
      | BEST_AVAILABLE => exact absurd rfl hcr
      | SHA1_SIGNATURE =>
        rw [nameInsert_sha1_false]
        rcases hW (by decide) with hs | hmem2
        · left
          rw [dnFind_insertIntoDnMap_ne (key_ne_of_name_ne hde),
            dnFind_insertIntoDnMap_ne (key_ne_of_name_ne hde)]
          exact hs
        · right
          rw [insertIntoDnMap_false_defaults,
            (defaults_insertIntoDnMap_ne (key_ne_of_name_ne hde))]
          exact hmem2

theorem wellFormed_nameInsert {st : SslContexts} {d : List Char}
    {c : ServerSSLContext} {crypto : CertCrypto} {dflt : Bool}
    (h : WellFormed st) : WellFormed (nameInsert st d c crypto dflt) := by
  cases crypto with
  | BEST_AVAILABLE =>
    cases dflt with
    | true =>
      rw [nameInsert_best_true]
      exact wellFormed_insertIntoDefaultKeys h
    | false =>
      rw [nameInsert_best_false]
      exact wellFormed_insertIntoDnMap h
  | SHA1_SIGNATURE =>
    cases dflt with
    | true =>
      rw [nameInsert_sha1_true]
      exact wellFormed_insertIntoDefaultKeys (wellFormed_insertIntoDefaultKeys h)
    | false =>
      rw [nameInsert_sha1_false]
      exact wellFormed_insertIntoDnMap (wellFormed_insertIntoDnMap h)

theorem nameInsert_ctxs {st : SslContexts} {d : List Char} {c : ServerSSLContext}
    {crypto : CertCrypto} {dflt : Bool} :
    (nameInsert st d c crypto dflt).ctxs = st.ctxs := by
  cases crypto with
  | BEST_AVAILABLE =>
    cases dflt with
    | true => rw [nameInsert_best_true, insertIntoDefaultKeys_ctxs]
    | false => rw [nameInsert_best_false, insertIntoDnMap_ctxs]
  | SHA1_SIGNATURE =>
    cases dflt with
    | true =>
      rw [nameInsert_sha1_true, insertIntoDefaultKeys_ctxs,
        insertIntoDefaultKeys_ctxs]
    | false =>
      rw [nameInsert_sha1_false, insertIntoDnMap_ctxs, insertIntoDnMap_ctxs]

theorem nameInsert_strict {st : SslContexts} {d : List Char} {c : ServerSSLContext}
    {crypto : CertCrypto} {dflt : Bool} :
    (nameInsert st d c crypto dflt).strict = st.strict := by
  cases crypto with
  | BEST_AVAILABLE =>
    cases dflt with
    | true => rw [nameInsert_best_true, insertIntoDefaultKeys_strict]
    | false => rw [nameInsert_best_false, insertIntoDnMap_strict]
  | SHA1_SIGNATURE =>
    cases dflt with
    | true =>
      rw [nameInsert_sha1_true, insertIntoDefaultKeys_strict,
        insertIntoDefaultKeys_strict]
    | false =>
      rw [nameInsert_sha1_false, insertIntoDnMap_strict, insertIntoDnMap_strict]

theorem nameInsert_domain {st : SslContexts} {d : List Char} {c : ServerSSLContext}
    {crypto : CertCrypto} {dflt : Bool} :
    (nameInsert st d c crypto dflt).defaultCtxDomainName =
      st.defaultCtxDomainName := by
  cases crypto with
  | BEST_AVAILABLE =>
    cases dflt with
    | true => rw [nameInsert_best_true, insertIntoDefaultKeys_domain]
    | false => rw [nameInsert_best_false, insertIntoDnMap_domain]
  | SHA1_SIGNATURE =>
    cases dflt with
    | true =>
      rw [nameInsert_sha1_true, insertIntoDefaultKeys_domain,
        insertIntoDefaultKeys_domain]
    | false =>
      rw [nameInsert_sha1_false, insertIntoDnMap_domain, insertIntoDnMap_domain]

theorem nameSettled_insertNames {names : List (List Char)} {st s1 : SslContexts}
    {r : Option InsertErr} {d : List Char} {c : ServerSSLContext}
    {crypto : CertCrypto} {dflt : Bool}
    (hwf : WellFormed st) (hset : NameSettled st d crypto c dflt)
    (h : insertNames st names c crypto dflt = (s1, r)) :
    NameSettled s1 d crypto c dflt := by
  revert st
  induction names with
  | nil =>
    intro st hwf hset h
    simp only [insertNames, Prod.mk.injEq] at h
    rw [← h.1]
    exact hset
  | cons n rest ih =>
    intro st hwf hset h
    cases hno : normalizeDn n with
    | ok d2 =>
      rw [insertNames_cons_ok (wrapper_ok_of_impl_ok
        (@insertImpl_eq_nameInsert st n d2 c crypto dflt hno))] at h
      exact ih (wellFormed_nameInsert hwf) (nameSettled_preserved hwf.1 hset) h
    | error er =>
      have himpl := @insertImpl_error st n c crypto dflt er hno
      cases hstrict : st.strict with
      | true =>
        rw [insertNames_cons_error (wrapper_strict_of_impl_error himpl hstrict)] at h
        injection h with ha hb
        rw [← ha]
        exact hset
      | false =>
        rw [insertNames_cons_ok (wrapper_lax_of_impl_error himpl hstrict)] at h
        exact ih hwf hset h

theorem insertNames_sound {names : List (List Char)} {st s1 : SslContexts}
    {c : ServerSSLContext} {crypto : CertCrypto} {dflt : Bool}
    (hwf : WellFormed st)
    (h : insertNames st names c crypto dflt = (s1, none)) :
    WellFormed s1 ∧ s1.strict = st.strict ∧ s1.ctxs = st.ctxs ∧
      s1.defaultCtxDomainName = st.defaultCtxDomainName ∧
      ∀ n ∈ names,
        (∃ d, normalizeDn n = Except.ok d ∧ NameSettled s1 d crypto c dflt) ∨
          ((∃ er, normalizeDn n = Except.error er) ∧ s1.strict = false) := by
  revert st
  induction names with
  | nil =>
    intro st hwf h
    simp only [insertNames, Prod.mk.injEq] at h
    rw [← h.1]
    exact ⟨hwf, rfl, rfl, rfl, by simp⟩
  | cons n rest ih =>
    intro st hwf h
    cases hno : normalizeDn n with
    | ok d2 =>
      rw [insertNames_cons_ok (wrapper_ok_of_impl_ok
        (@insertImpl_eq_nameInsert st n d2 c crypto dflt hno))] at h
      obtain ⟨hwf1, hstrict1, hctxs1, hdom1, hall⟩ :=
        ih (wellFormed_nameInsert hwf) h
      refine ⟨hwf1, ?_, ?_, ?_, ?_⟩
      · rw [hstrict1, nameInsert_strict]
      · rw [hctxs1, nameInsert_ctxs]
      · rw [hdom1, nameInsert_domain]
      · intro n2 hn2
        rcases List.mem_cons.mp hn2 with hh | hh
        · subst hh
          left
          exact ⟨d2, hno, nameSettled_insertNames (wellFormed_nameInsert hwf)
            (nameSettled_post hwf.1) h⟩
        · exact hall n2 hh
    | error er =>
      have himpl := @insertImpl_error st n c crypto dflt er hno
      cases hstrict : st.strict with
      | true =>
        rw [insertNames_cons_error (wrapper_strict_of_impl_error himpl hstrict)] at h
        injection h with ha hb
        exact Option.noConfusion hb
      | false =>
        rw [insertNames_cons_ok (wrapper_lax_of_impl_error himpl hstrict)] at h
        obtain ⟨hwf1, hstrict1, hctxs1, hdom1, hall⟩ := ih hwf h
        refine ⟨hwf1, hstrict1.trans hstrict, hctxs1, hdom1, ?_⟩
        intro n2 hn2
        rcases List.mem_cons.mp hn2 with hh | hh
        · subst hh
          right
          refine ⟨⟨er, hno⟩, ?_⟩
          rw [hstrict1]
          exact hstrict
        · exact hall n2 hh

theorem insertNames_noop {names : List (List Char)} {s1 : SslContexts}
    {c : ServerSSLContext} {crypto : CertCrypto} {dflt : Bool}
    (hall : ∀ n ∈ names,
      (∃ d, normalizeDn n = Except.ok d ∧ NameSettled s1 d crypto c dflt) ∨
        ((∃ er, normalizeDn n = Except.error er) ∧ s1.strict = false)) :
    insertNames s1 names c crypto dflt = (s1, none) := by
  revert hall
  induction names with
  | nil =>
    intro hall
    rfl
  | cons n rest ih =>
    intro hall
    rcases hall n (List.mem_cons_self n rest) with ⟨d, hnd, hset⟩ | ⟨⟨er, hner⟩, hlax⟩
    · have himpl := @insertImpl_eq_nameInsert s1 n d c crypto dflt hnd
      rw [nameInsert_noop hset] at himpl
      rw [insertNames_cons_ok (wrapper_ok_of_impl_ok himpl)]
      exact ih (fun n2 hn2 => hall n2 (List.mem_cons_of_mem n hn2))
    · have himpl := @insertImpl_error s1 n c crypto dflt er hner
      rw [insertNames_cons_ok (wrapper_lax_of_impl_error himpl hlax)]
      exact ih (fun n2 hn2 => hall n2 (List.mem_cons_of_mem n hn2))

theorem insert_eq_of_names_true {s s1 : SslContexts} {cert : CertInfo}
    {c : ServerSSLContext} (hstar : ¬ cert.cn = ['*'])
    (h : insertNames s (cert.cn :: cert.sans) c (certCryptoOf cert) true =
      (s1, none)) :
    insert s cert c true = ({ s1 with defaultCtxDomainName := cert.cn }, none) := by
  simp [insert, hstar, h]

theorem insert_eq_of_names_false {s s1 : SslContexts} {cert : CertInfo}
    {c : ServerSSLContext} (hstar : ¬ cert.cn = ['*'])
    (h : insertNames s (cert.cn :: cert.sans) c (certCryptoOf cert) false =
      (s1, none)) :
    insert s cert c false = (addServerContext s1 c, none) := by
  simp [insert, hstar, h]

theorem insert_eq_of_names_err {s s1 : SslContexts} {cert : CertInfo}
    {c : ServerSSLContext} {dflt : Bool} {er : InsertErr}
    (hstar : ¬ cert.cn = ['*'])
    (h : insertNames s (cert.cn :: cert.sans) c (certCryptoOf cert) dflt =
      (s1, some er)) :
    insert s cert c dflt = (s1, some er) := by
  simp [insert, hstar, h]

/-- C9.  Insertion idempotence: inserting the same certificate (same CN,
same SANs, same signature algorithm, same default flag, same context)
a second time into a well-formed state leaves the index equivalent to the
once-inserted state `s1`: the second insertion succeeds, the dnMap, the
default-key set and the default domain name are unchanged (so every lookup
and every default-key query answers the same), and the contexts list has
the same members. -/
theorem insert_idempotent (s s1 : SslContexts) (cert : CertInfo)
    (c : ServerSSLContext) (dflt : Bool) (hwf : WellFormed s)
    (h1 : insert s cert c dflt = (s1, none)) :
    (insert s1 cert c dflt).2 = none ∧
    ((insert s1 cert c dflt).1).dnMap = s1.dnMap ∧
    ((insert s1 cert c dflt).1).defaultCtxKeys = s1.defaultCtxKeys ∧
    ((insert s1 cert c dflt).1).defaultCtxDomainName = s1.defaultCtxDomainName ∧
    (∀ k, SslContexts.getSSLCtx ((insert s1 cert c dflt).1) k =
        SslContexts.getSSLCtx s1 k ∧
      isDefaultCtx ((insert s1 cert c dflt).1) k = isDefaultCtx s1 k) ∧
    (∀ x, x ∈ ((insert s1 cert c dflt).1).ctxs ↔ x ∈ s1.ctxs) := by
  by_cases hstar : cert.cn = ['*']
  · cases dflt with
    | false => simp [insert, hstar] at h1
    | true =>
      have hss : insert s cert c true = (s, none) := by simp [insert, hstar]
      rw [hss] at h1
      have ha : s = s1 := (Prod.mk.injEq _ _ _ _).mp h1 |>.1
      subst ha
      rw [hss]
      exact ⟨rfl, rfl, rfl, rfl, fun k => ⟨rfl, rfl⟩, fun x => Iff.rfl⟩
  · rcases hres : insertNames s (cert.cn :: cert.sans) c (certCryptoOf cert) dflt
      with ⟨s1x, r⟩
    cases r with
    | some e =>
      rw [insert_eq_of_names_err hstar hres] at h1
      exact Option.noConfusion ((Prod.mk.injEq _ _ _ _).mp h1).2
    | none =>
      obtain ⟨hwf1, hstrict1, hctxs1, hdom1, hall⟩ := insertNames_sound hwf hres
      cases dflt with
      | true =>
        rw [insert_eq_of_names_true hstar hres] at h1
        have ha : { s1x with defaultCtxDomainName := cert.cn } = s1 :=
          ((Prod.mk.injEq _ _ _ _).mp h1).1
        subst ha
        have hnames2 : insertNames { s1x with defaultCtxDomainName := cert.cn }
            (cert.cn :: cert.sans) c (certCryptoOf cert) true =
            ({ s1x with defaultCtxDomainName := cert.cn }, none) :=
          insertNames_noop hall
        rw [insert_eq_of_names_true hstar hnames2]
        exact ⟨rfl, rfl, rfl, rfl, fun k => ⟨rfl, rfl⟩, fun x => Iff.rfl⟩
      | false =>
        rw [insert_eq_of_names_false hstar hres] at h1
        have ha : addServerContext s1x c = s1 :=
          ((Prod.mk.injEq _ _ _ _).mp h1).1
        subst ha
        have hnames2 : insertNames (addServerContext s1x c)
            (cert.cn :: cert.sans) c (certCryptoOf cert) false =
            (addServerContext s1x c, none) :=
          insertNames_noop hall
        rw [insert_eq_of_names_false hstar hnames2]
        refine ⟨rfl, rfl, rfl, rfl, fun k => ⟨rfl, rfl⟩, ?_⟩
        intro x
        constructor
        · intro hx
          rcases List.mem_append.mp hx with hx1 | hx1
          · exact hx1
          · rw [List.mem_singleton] at hx1
            subst hx1
            exact List.mem_append_right _ (by simp)
        · intro hx
          exact List.mem_append_left _ hx

/-- Certificate for the C9 witness: CN "ww", one SAN "ap", SHA-1 signed. -/
def idemCert : CertInfo := ⟨['w', 'w'], [['a', 'p']], 65⟩

/-- Context for the C9 witness. -/
def idemCtx : ServerSSLContext := ⟨3, none⟩

/-- The once-inserted state of the C9 witness. -/
def idemState1 : SslContexts :=
  (insert (SslContexts.create true) idemCert idemCtx false).1

/-- Witness for C9 at a concrete SHA-1 certificate with two names. -/
theorem insert_idempotent_witness :
    WellFormed (SslContexts.create true) ∧
    insert (SslContexts.create true) idemCert idemCtx false = (idemState1, none) ∧
    (insert idemState1 idemCert idemCtx false).2 = none ∧
    (insert idemState1 idemCert idemCtx false).1.dnMap = idemState1.dnMap :=
  ⟨wellFormed_create, by decide,
    (insert_idempotent (SslContexts.create true) idemState1 idemCert idemCtx false
      wellFormed_create (by decide)).1,
    (insert_idempotent (SslContexts.create true) idemState1 idemCert idemCtx false
      wellFormed_create (by decide)).2.1⟩

end Wangle
